import Mathlib

/-!
Verification of the auflowtojson pipeline (flowchart image → node JSON →
actionable JSON, plus a PDF page extractor).

Python strings are embedded as `List Char`, files as partial maps from path
to content, and the external Bedrock completion service and the external
PDF rasterizer as opaque stubbed inputs, following the spec's scope note
that both are out-of-scope collaborators.  `json.loads` / `json.dumps`
(with `indent=2`, `ensure_ascii=True`) are modelled by an executable
recursive-descent parser and renderer over a JSON value type.  Python's
lone-surrogate strings are not representable in Lean's `Char`, so the
parser rejects a `\uXXXX` escape denoting an unpaired surrogate; paired
surrogates are combined exactly as Python's decoder does.
-/

/-! ## Python string primitives -/

/-- Model of Python `str.startswith(pre)` on code-point lists. -/
def pyStartsWith (pre s : List Char) : Bool :=
  List.isPrefixOf pre s

/-- Model of Python `str.lstrip(chars)`: drop leading characters that belong
to the character set `chars`. -/
def pyLstrip (chars s : List Char) : List Char :=
  s.dropWhile (fun c => chars.contains c)

/-- Model of Python `str.rstrip(chars)`: drop trailing characters that belong
to the character set `chars`. -/
def pyRstrip (chars s : List Char) : List Char :=
  (s.reverse.dropWhile (fun c => chars.contains c)).reverse

/-- JSON whitespace characters (Python `json` skips exactly these). -/
def isWsChar (c : Char) : Bool :=
  c = ' ' || c = '\t' || c = '\n' || c = '\r'

def isDigitChar (c : Char) : Bool :=
  48 ≤ c.toNat && c.toNat ≤ 57

def isDigit19 (c : Char) : Bool :=
  49 ≤ c.toNat && c.toNat ≤ 57

/-- Drop leading JSON whitespace. -/
def skipWs (cs : List Char) : List Char :=
  cs.dropWhile isWsChar

/-- Trim JSON whitespace from both ends (right end first). -/
def trimWsBoth (cs : List Char) : List Char :=
  pyLstrip [' ', '\t', '\n', '\r'] (pyRstrip [' ', '\t', '\n', '\r'] cs)

/-! ## JSON values

Keys and strings are decoded code-point lists; numbers keep their source
token verbatim (Python distinguishes `1` from `1.0`, and the pipeline never
computes with numbers, only reprints them). -/

inductive JsonVal where
  | null
  | bool (b : Bool)
  | num (tok : List Char)
  | str (s : List Char)
  | arr (items : List JsonVal)
  | obj (members : List (List Char × JsonVal))

instance : Inhabited JsonVal := ⟨JsonVal.null⟩

/-! ## Number tokenizer

Faithful to Python's `json` number regex
`(-?(?:0|[1-9]\d*))(\.\d+)?([eE][-+]?\d+)?` matched greedily at the current
position (a non-matching optional group simply ends the token). -/

/-- Integer part: `0`, or a nonzero digit followed by digits. -/
def numIntPart (cs : List Char) : Option (List Char × List Char) :=
  match cs with
  | [] => none
  | c :: rest =>
    if c = '0' then some (['0'], rest)
    else if isDigit19 c then
      some (c :: rest.takeWhile isDigitChar, rest.dropWhile isDigitChar)
    else none

/-- Optional fraction part `\.\d+`; returns `([], cs)` when absent. -/
def numFracPart (cs : List Char) : List Char × List Char :=
  match cs with
  | '.' :: rest =>
    if rest.takeWhile isDigitChar = [] then ([], cs)
    else ('.' :: rest.takeWhile isDigitChar, rest.dropWhile isDigitChar)
  | _ => ([], cs)

/-- Optional exponent part `[eE][-+]?\d+`; returns `([], cs)` when absent. -/
def numExpPart (cs : List Char) : List Char × List Char :=
  match cs with
  | e :: rest =>
    if e = 'e' || e = 'E' then
      match rest with
      | s :: rest2 =>
        if s = '+' || s = '-' then
          if rest2.takeWhile isDigitChar = [] then ([], cs)
          else (e :: s :: rest2.takeWhile isDigitChar, rest2.dropWhile isDigitChar)
        else
          if rest.takeWhile isDigitChar = [] then ([], cs)
          else (e :: rest.takeWhile isDigitChar, rest.dropWhile isDigitChar)
      | [] => ([], cs)
    else ([], cs)
  | [] => ([], cs)

/-- Tokenize a JSON number at the head of `cs`, returning the token and the
unconsumed remainder. -/
def parseNumberTok (cs : List Char) : Option (List Char × List Char) :=
  match cs with
  | '-' :: rest =>
    match numIntPart rest with
    | none => none
    | some (ip, r1) =>
      let f := numFracPart r1
      let e := numExpPart f.2
      some ('-' :: (ip ++ f.1 ++ e.1), e.2)
  | _ =>
    match numIntPart cs with
    | none => none
    | some (ip, r1) =>
      let f := numFracPart r1
      let e := numExpPart f.2
      some (ip ++ f.1 ++ e.1, e.2)

/-! ## String escapes -/

/-- Value of one hexadecimal digit (either case), as Python's decoder
accepts. -/
def hexVal (c : Char) : Option Nat :=
  if isDigitChar c then some (c.toNat - 48)
  else if 97 ≤ c.toNat && c.toNat ≤ 102 then some (c.toNat - 87)
  else if 65 ≤ c.toNat && c.toNat ≤ 70 then some (c.toNat - 55)
  else none

def hex4 (a b c d : Char) : Option Nat :=
  match hexVal a, hexVal b, hexVal c, hexVal d with
  | some x1, some x2, some x3, some x4 => some (((x1 * 16 + x2) * 16 + x3) * 16 + x4)
  | _, _, _, _ => none

/-- Lowercase hex digit, as Python's `\uXXXX` escaping emits. -/
def hexDig (n : Nat) : Char :=
  if n < 10 then Char.ofNat (48 + n) else Char.ofNat (87 + n)

/-- Four-digit lowercase hex rendering of `n < 0x10000`. -/
def natHex4 (n : Nat) : List Char :=
  [hexDig (n / 4096 % 16), hexDig (n / 256 % 16), hexDig (n / 16 % 16), hexDig (n % 16)]

def consMap (c : Char) (o : Option (List Char × List Char)) : Option (List Char × List Char) :=
  o.map (fun p => (c :: p.1, p.2))

/-- Decode of one short escape letter (`\uXXXX` handled separately). -/
def escShort (e : Char) : Option Char :=
  if e = '"' then some '"'
  else if e = '\\' then some '\\'
  else if e = '/' then some '/'
  else if e = 'b' then some (Char.ofNat 8)
  else if e = 'f' then some (Char.ofNat 12)
  else if e = 'n' then some '\n'
  else if e = 'r' then some '\r'
  else if e = 't' then some '\t'
  else none

/-- Decode a low-surrogate `\uXXXX` escape (backslash, `u` and four hex
digits in the range dc00-dfff) at the head of the input. -/
def lowSurrEscape : List Char → Option (Nat × List Char)
  | s1 :: s2 :: a :: b :: c :: d :: r3 =>
    if s1 = '\\' && s2 = 'u' then
      match hex4 a b c d with
      | none => none
      | some m => if 56320 ≤ m && m < 57344 then some (m, r3) else none
    else none
  | _ => none

/-- Decode the body of a JSON string (the opening quote already consumed),
returning the decoded characters and the remainder after the closing quote.
Strict mode: raw control characters are rejected, as Python's default
decoder does.  A `\uXXXX` escape for a high surrogate must be followed by a
low surrogate escape (combined into one scalar); Lean's `Char` cannot carry
the unpaired surrogates Python tolerates, so those are rejected. -/
def parseStringBody : Nat → List Char → Option (List Char × List Char)
  | 0, _ => none
  | Nat.succ f, cs =>
    match cs with
    | [] => none
    | c :: rest =>
        if c = '"' then some ([], rest)
        else if c = '\\' then
          match rest with
          | [] => none
          | e :: r =>
            if e = 'u' then
              match r with
              | a :: b :: c1 :: d :: r2 =>
                match hex4 a b c1 d with
                | none => none
                | some n =>
                  if n < 55296 || 57344 ≤ n then consMap (Char.ofNat n) (parseStringBody f r2)
                  else if n < 56320 then
                    match lowSurrEscape r2 with
                    | some (m, r3) =>
                      consMap (Char.ofNat (65536 + (n - 55296) * 1024 + (m - 56320)))
                        (parseStringBody f r3)
                    | none => none
                  else none
              | _ => none
            else
              match escShort e with
              | some ch => consMap ch (parseStringBody f r)
              | none => none
        else if c.toNat < 32 then none
        else consMap c (parseStringBody f rest)

/-! ## Value parser (fuelled) -/

/-- Head-character test (`False` on the empty list). -/
def headIsChar (ch : Char) : List Char → Bool
  | [] => false
  | c :: _ => c = ch


/-- Insert into an association list with Python `dict` semantics: an existing
key keeps its position and gets the new value, a fresh key is appended. -/
def dictInsert (m : List (List Char × JsonVal)) (k : List Char) (v : JsonVal) :
    List (List Char × JsonVal) :=
  match m with
  | [] => [(k, v)]
  | (k0, v0) :: t => if k0 = k then (k0, v) :: t else (k0, v0) :: dictInsert t k v

/-- Build a Python `dict` from parsed members in order. -/
def buildDict (ps : List (List Char × JsonVal)) : List (List Char × JsonVal) :=
  ps.foldl (fun m kv => dictInsert m kv.1 kv.2) []

def expectLit (cs lit : List Char) (v : JsonVal) : Option (JsonVal × List Char) :=
  if List.isPrefixOf lit cs then some (v, cs.drop lit.length) else none

mutual

/-- Parse one JSON value at the head of `cs` (leading whitespace already
skipped by the caller), with recursion fuel. -/
def parseValue : Nat → List Char → Option (JsonVal × List Char)
  | 0, _ => none
  | Nat.succ f, cs =>
    match cs with
    | [] => none
    | c :: cs' =>
      if c = 'n' then expectLit cs ['n', 'u', 'l', 'l'] JsonVal.null
      else if c = 't' then expectLit cs ['t', 'r', 'u', 'e'] (JsonVal.bool true)
      else if c = 'f' then expectLit cs ['f', 'a', 'l', 's', 'e'] (JsonVal.bool false)
      else if c = '"' then
        match parseStringBody (cs'.length + 1) cs' with
        | some (s, r) => some (JsonVal.str s, r)
        | none => none
      else if c = '[' then
        if headIsChar ']' (skipWs cs') then some (JsonVal.arr [], (skipWs cs').tail)
        else
          match parseValue f (skipWs cs') with
          | some (v, r1) =>
            match parseArrRest f (skipWs r1) with
            | some (vs, r2) => some (JsonVal.arr (v :: vs), r2)
            | none => none
          | none => none
      else if c = Char.ofNat 123 then
        if headIsChar (Char.ofNat 125) (skipWs cs') then some (JsonVal.obj [], (skipWs cs').tail)
        else
          match parseMember f (skipWs cs') with
          | some (kv, r1) =>
            match parseObjRest f (skipWs r1) with
            | some (kvs, r2) => some (JsonVal.obj (buildDict (kv :: kvs)), r2)
            | none => none
          | none => none
      else
        match parseNumberTok cs with
        | some (t, r) => some (JsonVal.num t, r)
        | none => none

/-- After one array element: `]` ends the array, `,` continues it. -/
def parseArrRest : Nat → List Char → Option (List JsonVal × List Char)
  | 0, _ => none
  | Nat.succ f, cs =>
    if headIsChar ']' cs then some ([], cs.tail)
    else if headIsChar ',' cs then
      match parseValue f (skipWs cs.tail) with
      | some (v, r1) =>
        match parseArrRest f (skipWs r1) with
        | some (vs, r2) => some (v :: vs, r2)
        | none => none
      | none => none
    else none

/-- One `"key": value` object member. -/
def parseMember : Nat → List Char → Option ((List Char × JsonVal) × List Char)
  | 0, _ => none
  | Nat.succ f, cs =>
    if headIsChar '"' cs then
      match parseStringBody (cs.tail.length + 1) cs.tail with
      | some (k, r1) =>
        if headIsChar ':' (skipWs r1) then
          match parseValue f (skipWs (skipWs r1).tail) with
          | some (v, r3) => some ((k, v), r3)
          | none => none
        else none
      | none => none
    else none

/-- After one object member: closing brace ends the object, `,` continues. -/
def parseObjRest : Nat → List Char → Option (List (List Char × JsonVal) × List Char)
  | 0, _ => none
  | Nat.succ f, cs =>
    if headIsChar (Char.ofNat 125) cs then some ([], cs.tail)
    else if headIsChar ',' cs then
      match parseMember f (skipWs cs.tail) with
      | some (kv, r1) =>
        match parseObjRest f (skipWs r1) with
        | some (kvs, r2) => some (kv :: kvs, r2)
        | none => none
      | none => none
    else none

end

/-- Model of Python `json.loads`: trim outer whitespace, parse one value,
demand full consumption. -/
def parseJson (cs : List Char) : Option JsonVal :=
  let t := trimWsBoth cs
  match parseValue (t.length + 1) t with
  | some (v, []) => some v
  | _ => none

/-! ## Renderer: `json.dumps(v, indent=2)` with default `ensure_ascii=True` -/

/-- Escape a single character exactly as `json.dumps` does by default:
short escapes for the common controls, `\u00xx` for other controls,
characters outside `0x20..0x7e` as `\uxxxx` (a surrogate pair beyond the
BMP), everything else verbatim. -/
def escChar (c : Char) : List Char :=
  if c = '"' then ['\\', '"']
  else if c = '\\' then ['\\', '\\']
  else if c = '\n' then ['\\', 'n']
  else if c = '\r' then ['\\', 'r']
  else if c = '\t' then ['\\', 't']
  else if c.toNat = 8 then ['\\', 'b']
  else if c.toNat = 12 then ['\\', 'f']
  else if c.toNat < 32 || 127 ≤ c.toNat then
    if c.toNat < 65536 then '\\' :: 'u' :: natHex4 c.toNat
    else
      '\\' :: 'u' :: natHex4 (55296 + (c.toNat - 65536) / 1024) ++
        '\\' :: 'u' :: natHex4 (56320 + (c.toNat - 65536) % 1024)
  else [c]

def escStr (s : List Char) : List Char :=
  s.foldr (fun c acc => escChar c ++ acc) []

def renderStr (s : List Char) : List Char :=
  '"' :: escStr s ++ ['"']

/-- `indent`-many spaces. -/
def sp (n : Nat) : List Char :=
  List.replicate n ' '

mutual

/-- Render a value at indentation level `ind`, as `json.dumps(·, indent=2)`
lays it out. -/
def renderV : Nat → JsonVal → List Char
  | _, JsonVal.null => ['n', 'u', 'l', 'l']
  | _, JsonVal.bool true => ['t', 'r', 'u', 'e']
  | _, JsonVal.bool false => ['f', 'a', 'l', 's', 'e']
  | _, JsonVal.num t => t
  | _, JsonVal.str s => renderStr s
  | _, JsonVal.arr [] => ['[', ']']
  | ind, JsonVal.arr (x :: xs) =>
    '[' :: '\n' :: sp (ind + 2) ++ renderV (ind + 2) x ++ renderItems (ind + 2) xs ++
      '\n' :: sp ind ++ [']']
  | _, JsonVal.obj [] => [Char.ofNat 123, Char.ofNat 125]
  | ind, JsonVal.obj (kv :: kvs) =>
    Char.ofNat 123 :: '\n' :: sp (ind + 2) ++ renderMember (ind + 2) kv ++
      renderMembers (ind + 2) kvs ++ '\n' :: sp ind ++ [Char.ofNat 125]

/-- Render the remaining array items, each preceded by `,\n` and indent. -/
def renderItems : Nat → List JsonVal → List Char
  | _, [] => []
  | ind, x :: xs => ',' :: '\n' :: sp ind ++ renderV ind x ++ renderItems ind xs

/-- Render one `"key": value` member. -/
def renderMember : Nat → List Char × JsonVal → List Char
  | ind, (k, v) => renderStr k ++ ':' :: ' ' :: renderV ind v

/-- Render the remaining object members, each preceded by `,\n` and indent. -/
def renderMembers : Nat → List (List Char × JsonVal) → List Char
  | _, [] => []
  | ind, kv :: kvs => ',' :: '\n' :: sp ind ++ renderMember ind kv ++ renderMembers ind kvs

end

/-- Model of `json.dumps(v, indent=2)` / `json.dump(v, f, indent=2)`. -/
def dumpJson (v : JsonVal) : List Char :=
  renderV 0 v

/-! ## Shared error, log and event vocabulary

Each Python `print` the claims care about becomes one structured log entry;
`FileNotFoundError` and `json.JSONDecodeError` become the two error codes
the pipeline can surface. -/

inductive PErr where
  | fileNotFound
  | jsonDecode
deriving DecidableEq, Repr

inductive LogEntry where
  | parseFailMsg
  | resultContent (txt : List Char)
  | savedNodes (path : List Char)
  | savedActionable (path : List Char)
  | foundPoppler (path : List Char)
  | popplerNotFound
  | extractError
  | hintInstall
  | hintPath
  | hintExplicit
  | extracted (path : List Char)
deriving DecidableEq, Repr

inductive Event where
  | calledImageToNodes
  | calledConvertNodes
  | wrote (path : List Char)
deriving DecidableEq, Repr

/-- Standard base64 encoding of a byte sequence (Python `base64.b64encode`). -/
def b64alphabet : List Char :=
  "ABCDEFGHIJKLMNOPQRSTUVWXYZabcdefghijklmnopqrstuvwxyz0123456789+/".data

def b64char (n : Nat) : Char :=
  b64alphabet.getD n 'A'

def b64encode : List Nat → List Char
  | [] => []
  | [a] => [b64char (a / 4), b64char (a % 4 * 16), '=', '=']
  | [a, b] => [b64char (a / 4), b64char (a % 4 * 16 + b / 16), b64char (b % 16 * 4), '=']
  | a :: b :: c :: rest =>
    b64char (a / 4) :: b64char (a % 4 * 16 + b / 16) :: b64char (b % 16 * 4 + c / 64) ::
      b64char (c % 64) :: b64encode rest

/-! ## `app/services/awsconnect.py` — `FlowchartProcessor`

The Bedrock completion call is the out-of-scope network collaborator; its
text reply is a stubbed input (`responseText`).  The image filesystem is a
partial map from path to bytes; the JSON filesystem a partial map from path
to text. -/

namespace FlowchartProcessor

/-- Lines 60-73.  `_clean_response`: if the text starts with a fence marker,
strip all leading backticks, then all leading characters of the set
`"json"`, then leading newlines; then strip all trailing backticks and
trailing newlines. -/
def clean_response (response_text : List Char) : List Char :=
  if pyStartsWith "```".data response_text then
    pyRstrip "\n".data
      (pyRstrip "`".data
        (pyLstrip "\n".data (pyLstrip "json".data (pyLstrip "`".data response_text))))
  else response_text

/-- Lines 22-34.  `_load_image_as_base64`: `open(image_path, "rb")` raises
`FileNotFoundError` for a missing path, otherwise the bytes are base64
encoded. -/
def load_image_as_base64 (imageFS : List Char → Option (List Nat)) (image_path : List Char) :
    Except PErr (List Char) :=
  match imageFS image_path with
  | none => Except.error PErr.fileNotFound
  | some bytes => Except.ok (b64encode bytes)

/-- Lines 75-132.  `image_to_nodes`: load the image, call the model (stubbed
as `responseText`), clean the reply, `json.loads` it; on a decode error
print `Failed to parse JSON. Error: ...` and re-raise. -/
def image_to_nodes (imageFS : List Char → Option (List Nat)) (responseText : List Char)
    (image_path : List Char) : Except PErr JsonVal × List LogEntry :=
  match load_image_as_base64 imageFS image_path with
  | Except.error e => (Except.error e, [])
  | Except.ok _img =>
    let result := clean_response responseText
    match parseJson result with
    | some v => (Except.ok v, [])
    | none => (Except.error PErr.jsonDecode, [LogEntry.parseFailMsg])

/-- Lines 134-144.  `save_nodes_to_file`: `json.dump(nodes, f, indent=2)` to
`output_file`, overwriting, then a confirmation print. -/
def save_nodes_to_file (textFS : List Char → Option (List Char)) (nodes : JsonVal)
    (output_file : List Char) : (List Char → Option (List Char)) × List LogEntry :=
  (fun p => if p = output_file then some (dumpJson nodes) else textFS p,
    [LogEntry.savedNodes output_file])

end FlowchartProcessor

/-! ## `app/services/stepsToActionableJson.py` — `ActionableNodeConverter` -/

namespace ActionableNodeConverter

/-- Lines 75-88.  `_clean_response`, textually identical to the copy in
`awsconnect.py`. -/
def clean_response (response_text : List Char) : List Char :=
  if pyStartsWith "```".data response_text then
    pyRstrip "\n".data
      (pyRstrip "`".data
        (pyLstrip "\n".data (pyLstrip "json".data (pyLstrip "`".data response_text))))
  else response_text

/-- Line 62 of `_get_conversion_prompt`, the rule the model is instructed to
apply: "If the node has only one connection, set choice to single,
otherwise multiple".  The transformation itself is delegated to the
completion service, so this prompt rule is the code-level artifact for the
`choice` field. -/
def choiceRule {α : Type} (connections : List α) : List Char :=
  if connections.length = 1 then "single".data else "multiple".data

/-- Lines 22-33 and 90-144.  `convert_nodes`: `json.load` the nodes file and
the template file (a missing file raises `FileNotFoundError`, bad JSON
raises `JSONDecodeError`, neither is caught here), call the model (stubbed
as `responseText`), clean, parse; on a decode error print the error line
and then the first 500 characters of the offending cleaned text, and
re-raise. -/
def convert_nodes (textFS : List Char → Option (List Char)) (responseText : List Char)
    (nodes_file template_file : List Char) : Except PErr JsonVal × List LogEntry :=
  match textFS nodes_file with
  | none => (Except.error PErr.fileNotFound, [])
  | some ntext =>
    match parseJson ntext with
    | none => (Except.error PErr.jsonDecode, [])
    | some _nodes =>
      match textFS template_file with
      | none => (Except.error PErr.fileNotFound, [])
      | some ttext =>
        match parseJson ttext with
        | none => (Except.error PErr.jsonDecode, [])
        | some _tmpl =>
          let result := clean_response responseText
          match parseJson result with
          | some v => (Except.ok v, [])
          | none =>
            (Except.error PErr.jsonDecode,
              [LogEntry.parseFailMsg, LogEntry.resultContent (result.take 500)])

/-- Lines 146-156.  `save_to_file`: `json.dump(data, f, indent=2)`,
overwriting, then a confirmation print. -/
def save_to_file (textFS : List Char → Option (List Char)) (data : JsonVal)
    (output_file : List Char) : (List Char → Option (List Char)) × List LogEntry :=
  (fun p => if p = output_file then some (dumpJson data) else textFS p,
    [LogEntry.savedActionable output_file])

end ActionableNodeConverter

/-! ## `app/main.py` — `FlowchartPipeline` and the entry point -/

/-- The world `process_flowchart` runs against: the image filesystem, the
text filesystem, and the two stubbed model replies. -/
structure PipeEnv where
  imageFS : List Char → Option (List Nat)
  textFS : List Char → Option (List Char)
  stub1 : List Char
  stub2 : List Char

namespace FlowchartPipeline

/-- Lines 24-40.  `process_flowchart`: stage one, save its nodes, stage two
on the just-written nodes file, save its result, return it.  An exception
from either stage propagates immediately; the event trace records stage
invocations and file writes in order. -/
def process_flowchart (env : PipeEnv)
    (image_path output_nodes_file output_actionable_file template_file : List Char) :
    Except PErr JsonVal × List Event :=
  match FlowchartProcessor.image_to_nodes env.imageFS env.stub1 image_path with
  | (Except.error e, _) => (Except.error e, [Event.calledImageToNodes])
  | (Except.ok nodes, _) =>
    let fs1 := (FlowchartProcessor.save_nodes_to_file env.textFS nodes output_nodes_file).1
    match ActionableNodeConverter.convert_nodes fs1 env.stub2 output_nodes_file template_file with
    | (Except.error e, _) =>
      (Except.error e,
        [Event.calledImageToNodes, Event.wrote output_nodes_file, Event.calledConvertNodes])
    | (Except.ok act, _) =>
      (Except.ok act,
        [Event.calledImageToNodes, Event.wrote output_nodes_file, Event.calledConvertNodes,
          Event.wrote output_actionable_file])

end FlowchartPipeline

/-- Python truthiness of a JSON value (`0 if result else 1` in
`main.py`).  A numeric token counts as falsy when its mantissa carries no
nonzero digit, matching `float`/`int` zero tests for all tokens whose
magnitude does not underflow to `0.0` (extreme exponents such as `1e-400`
are floating-point behaviour, outside this embedding). -/
def numTokZero (t : List Char) : Bool :=
  (t.takeWhile (fun c => !(c = 'e' || c = 'E'))).all (fun c => !isDigit19 c)

def pyTruthy : JsonVal → Bool
  | JsonVal.null => false
  | JsonVal.bool b => b
  | JsonVal.num t => !numTokZero t
  | JsonVal.str s => !s.isEmpty
  | JsonVal.arr l => !l.isEmpty
  | JsonVal.obj m => !m.isEmpty

/-- Lines 89-97.  How `main()` finishes: a normal pipeline result is
returned, `FileNotFoundError` is caught and `None` returned, any other
exception is re-raised (so `main` never returns on that path). -/
def mainReturn (r : Except PErr JsonVal) : Option (Option JsonVal) :=
  match r with
  | Except.ok v => some (some v)
  | Except.error PErr.fileNotFound => some none
  | Except.error _ => none

/-- Truthiness of `main`'s returned object (`None` is falsy). -/
def optTruthyV : Option JsonVal → Bool
  | none => false
  | some v => pyTruthy v

/-- Lines 100-102.  `sys.exit(0 if result else 1)` when `main` returns; a
re-raised exception terminates the interpreter with exit status 1. -/
def mainExit (r : Except PErr JsonVal) : Nat :=
  match mainReturn r with
  | some result => if optTruthyV result then 0 else 1
  | none => 1

/-! ## `app/services/extractImageFromPdf.py` -/

namespace ExtractImages

/-- Lines 9-15.  The fixed candidate poppler installation directories, in
probe order; `os.path.expanduser` resolves `~` to the home directory. -/
def common_paths (home : List Char) : List (List Char) :=
  ["C:\\Users\\rakshithas\\Downloads\\Release-25.12.0-0\\poppler-25.12.0\\Library\\bin".data,
   "C:\\Program Files\\poppler\\bin".data,
   "C:\\Program Files (x86)\\poppler\\bin".data,
   "C:\\poppler\\bin".data,
   home ++ "\\AppData\\Local\\poppler\\bin".data]

/-- Lines 17-22.  The probe loop of `find_poppler_path`: first existing
candidate wins, with an `[OK] Found poppler at: ...` print; `None` and no
print when none exists. -/
def probePaths (pathExists : List Char → Bool) :
    List (List Char) → Option (List Char) × List LogEntry
  | [] => (none, [])
  | p :: ps =>
    if pathExists p then (some p, [LogEntry.foundPoppler p]) else probePaths pathExists ps

/-- Lines 8-22.  `find_poppler_path()`. -/
def find_poppler_path (pathExists : List Char → Bool) (home : List Char) :
    Option (List Char) × List LogEntry :=
  probePaths pathExists (common_paths home)

/-- Python truthiness of the optional poppler path argument: `None` and the
empty string are both falsy. -/
def optTruthy (o : Option (List Char)) : Bool :=
  match o with
  | none => false
  | some s => !s.isEmpty

/-- Lines 31-35 of `extract_images_from_pdf`: `if not poppler_path:` probe
the candidates, printing `Poppler not found in common locations` when the
probe also fails.  Besides the chosen path, the result records whether
probing ran, and the prints. -/
def select_poppler (pathExists : List Char → Bool) (home : List Char)
    (poppler_path : Option (List Char)) : Option (List Char) × Bool × List LogEntry :=
  if optTruthy poppler_path then (poppler_path, false, [])
  else
    match find_poppler_path pathExists home with
    | (some p, lg) => (some p, true, lg)
    | (none, lg) => (none, true, lg ++ [LogEntry.popplerNotFound])

/-- Line 45.  `os.path.join(output_folder, f"page_{i+1:03d}.png")`, with the
POSIX separator standing in for `os.sep`. -/
def pagePath (output_folder : List Char) (n : Nat) : List Char :=
  let digits := (Nat.repr n).data
  let padded := if digits.length < 3 then List.replicate (3 - digits.length) '0' ++ digits
    else digits
  output_folder ++ '/' :: "page_".data ++ padded ++ ".png".data

/-- Lines 44-48.  The save loop: page `i` (0-based) is written to
`page_{i+1:03d}.png` and logged; a raised save error (`saveOk i = false`)
aborts the loop. -/
def saveLoop {α : Type} (output_folder : List Char) (saveOk : Nat → Bool) :
    List α → Nat → Option (List (List Char) × List LogEntry)
  | [], _ => some ([], [])
  | _ :: rest, i =>
    let path := pagePath output_folder (i + 1)
    if saveOk i then
      (saveLoop output_folder saveOk rest (i + 1)).map
        (fun p => (path :: p.1, LogEntry.extracted path :: p.2))
    else none

/-- Lines 25-58.  `extract_images_from_pdf`: select a poppler path, call the
external rasterizer (`convert_from_path`, an opaque collaborator stubbed as
`rasterize`, invoked with the explicit path only when it is truthy and
exists), save each page; any exception in that `try` block prints the
error plus three remediation hints and yields `[]`. -/
def extract_images_from_pdf {α : Type} (pathExists : List Char → Bool) (home : List Char)
    (rasterize : Option (List Char) → Except Unit (List α)) (saveOk : Nat → Bool)
    (output_folder : List Char) (poppler_path : Option (List Char)) :
    List (List Char) × List LogEntry :=
  let sel := select_poppler pathExists home poppler_path
  let callArg : Option (List Char) :=
    match sel.1 with
    | some p => if !p.isEmpty && pathExists p then some p else none
    | none => none
  let failLogs :=
    sel.2.2 ++ [LogEntry.extractError, LogEntry.hintInstall, LogEntry.hintPath,
      LogEntry.hintExplicit]
  match rasterize callArg with
  | Except.error _ => ([], failLogs)
  | Except.ok images =>
    match saveLoop output_folder saveOk images 0 with
    | none => ([], failLogs)
    | some (files, logs) => (files, sel.2.2 ++ logs)

end ExtractImages

/-! # Verification

## Stripping lemmas -/

theorem dropWhile_append_all {α : Type} (p : α → Bool) (l1 l2 : List α) :
    (l1 ++ l2).dropWhile p =
      if l1.all p then l2.dropWhile p else l1.dropWhile p ++ l2 := by
  induction l1 with
  | nil => simp
  | cons a t ih => by_cases h : p a <;> simp [List.dropWhile_cons, h, ih]

theorem dropWhile_subset_absorb {p q : Char → Bool} (h : ∀ c, p c = true → q c = true)
    (x : List Char) : (x.dropWhile p).dropWhile q = x.dropWhile q := by
  induction x with
  | nil => rfl
  | cons a t ih =>
    by_cases ha : p a
    · simp [List.dropWhile_cons, ha, h a ha, ih]
    · simp [List.dropWhile_cons, ha]

theorem pyLstrip_cons (chars : List Char) (a : Char) (l : List Char) :
    pyLstrip chars (a :: l) =
      if chars.contains a then pyLstrip chars l else a :: l := by
  unfold pyLstrip
  rw [List.dropWhile_cons]

theorem pyLstrip_subset_absorb {sub sup : List Char}
    (h : ∀ c, sub.contains c = true → sup.contains c = true) (x : List Char) :
    pyLstrip sup (pyLstrip sub x) = pyLstrip sup x :=
  dropWhile_subset_absorb h x

theorem pyRstrip_subset_absorb {sub sup : List Char}
    (h : ∀ c, sub.contains c = true → sup.contains c = true) (x : List Char) :
    pyRstrip sup (pyRstrip sub x) = pyRstrip sup x := by
  unfold pyRstrip
  rw [List.reverse_reverse, dropWhile_subset_absorb h]

theorem pyRstrip_cons (chars : List Char) (a : Char) (l : List Char) :
    pyRstrip chars (a :: l) =
      if pyRstrip chars l = [] then (if chars.contains a then [] else [a])
      else a :: pyRstrip chars l := by
  unfold pyRstrip
  rw [show (a :: l).reverse = l.reverse ++ [a] from by simp, dropWhile_append_all]
  by_cases h : (l.reverse.dropWhile fun c => chars.contains c) = []
  · have hall : (l.reverse.all fun c => chars.contains c) = true :=
      List.all_eq_true.mpr (List.dropWhile_eq_nil_iff.mp h)
    have hrev : ((l.reverse.dropWhile fun c => chars.contains c)).reverse = [] := by
      rw [h]; rfl
    rw [if_pos hall, if_pos hrev, List.dropWhile_cons]
    by_cases ha : chars.contains a = true
    · rw [if_pos ha, if_pos ha]
      rfl
    · rw [if_neg ha, if_neg ha]
      rfl
  · have hall : (l.reverse.all fun c => chars.contains c) = false := by
      rcases Bool.eq_false_or_eq_true (l.reverse.all fun c => chars.contains c) with ht | hf
      · exact absurd (List.dropWhile_eq_nil_iff.mpr (List.all_eq_true.mp ht)) h
      · exact hf
    have h2 : (List.dropWhile (fun c => chars.contains c) l.reverse).reverse ≠ [] := by
      intro hc
      exact h (by simpa using congrArg List.reverse hc)
    rw [if_neg (by rw [hall]; simp), if_neg h2, List.reverse_append]
    rfl

theorem pyLstrip_nil (chars : List Char) : pyLstrip chars [] = [] := rfl

theorem pyRstrip_pyLstrip_comm (b a x : List Char) :
    pyRstrip b (pyLstrip a x) = pyLstrip a (pyRstrip b x) := by
  induction x with
  | nil => rfl
  | cons c t ih =>
    rw [pyLstrip_cons, pyRstrip_cons]
    by_cases hca : a.contains c = true
    · rw [if_pos hca, ih]
      by_cases hr : pyRstrip b t = []
      · rw [if_pos hr, hr, pyLstrip_nil]
        by_cases hcb : b.contains c = true
        · rw [if_pos hcb]
          rfl
        · rw [if_neg hcb, pyLstrip_cons, if_pos hca]
          rfl
      · rw [if_neg hr, pyLstrip_cons, if_pos hca]
    · rw [if_neg hca, pyRstrip_cons]
      by_cases hr : pyRstrip b t = []
      · rw [if_pos hr]
        by_cases hcb : b.contains c = true
        · rw [if_pos hcb]
          rfl
        · rw [if_neg hcb, pyLstrip_cons, if_neg hca]
      · rw [if_neg hr, pyLstrip_cons, if_neg hca]

theorem pyRstrip_append_all (chars x y : List Char) :
    pyRstrip chars (x ++ y) =
      if y.all (fun c => chars.contains c) then pyRstrip chars x
      else x ++ pyRstrip chars y := by
  unfold pyRstrip
  rw [List.reverse_append, dropWhile_append_all]
  by_cases hall : (y.all fun c => chars.contains c) = true
  · rw [if_pos (by rw [List.all_reverse]; exact hall), if_pos hall]
  · rw [if_neg (by rw [List.all_reverse]; exact hall), if_neg hall, List.reverse_append,
      List.reverse_reverse]

/-- The result of stripping newlines from both ends, the shape
`_clean_response` leaves a fenced payload in. -/
def trimNl (cs : List Char) : List Char :=
  pyRstrip "\n".data (pyLstrip "\n".data cs)

theorem nl_subset_ws :
    ∀ ch : Char, ("\n".data.contains ch) = true → (([' ', '\t', '\n', '\r'] : List Char).contains ch) = true := by
  intro ch h
  have : ch = '\n' := by simpa using h
  subst this
  decide

theorem trimWsBoth_trimNl (c : List Char) : trimWsBoth (trimNl c) = trimWsBoth c := by
  unfold trimWsBoth trimNl
  rw [pyRstrip_subset_absorb nl_subset_ws, pyRstrip_pyLstrip_comm,
    pyLstrip_subset_absorb nl_subset_ws]

theorem parseJson_trimNl (c : List Char) : parseJson (trimNl c) = parseJson c := by
  unfold parseJson
  rw [trimWsBoth_trimNl]

theorem clean_response_tail (c : List Char) :
    pyRstrip "\n".data (pyRstrip "`".data (pyLstrip "\n".data (c ++ "\n```".data)))
      = trimNl c := by
  rw [show pyLstrip "\n".data (c ++ "\n```".data)
      = (c ++ "\n```".data).dropWhile (fun ch => "\n".data.contains ch) from rfl]
  rw [dropWhile_append_all]
  by_cases hall : (c.all fun ch => "\n".data.contains ch) = true
  · rw [if_pos hall]
    have hnil : pyLstrip "\n".data c = [] :=
      List.dropWhile_eq_nil_iff.mpr (List.all_eq_true.mp hall)
    unfold trimNl
    rw [hnil]
    decide
  · rw [if_neg hall]
    rw [show (c.dropWhile fun ch => "\n".data.contains ch) = pyLstrip "\n".data c from rfl]
    rw [pyRstrip_append_all, if_neg (by decide),
      show pyRstrip "`".data "\n```".data = ['\n'] from by decide]
    rw [show pyLstrip "\n".data c ++ ['\n'] = pyLstrip "\n".data c ++ ['\n'] from rfl,
      pyRstrip_append_all, if_pos (by decide)]
    rfl

theorem clean_response_wrap_json (c : List Char) :
    FlowchartProcessor.clean_response ("```json\n".data ++ c ++ "\n```".data) = trimNl c := by
  have hshape : "```json\n".data ++ c ++ "\n```".data
      = '`' :: '`' :: '`' :: 'j' :: 's' :: 'o' :: 'n' :: '\n' :: (c ++ "\n```".data) := rfl
  rw [hshape]
  unfold FlowchartProcessor.clean_response
  rw [if_pos (by simp [pyStartsWith, List.isPrefixOf])]
  rw [pyLstrip_cons, if_pos (by decide), pyLstrip_cons, if_pos (by decide),
    pyLstrip_cons, if_pos (by decide), pyLstrip_cons, if_neg (by decide)]
  rw [pyLstrip_cons, if_pos (by decide), pyLstrip_cons, if_pos (by decide),
    pyLstrip_cons, if_pos (by decide), pyLstrip_cons, if_pos (by decide),
    pyLstrip_cons, if_neg (by decide)]
  rw [pyLstrip_cons, if_pos (by decide)]
  exact clean_response_tail c

theorem clean_response_wrap_plain (c : List Char) :
    FlowchartProcessor.clean_response ("```\n".data ++ c ++ "\n```".data) = trimNl c := by
  have hshape : "```\n".data ++ c ++ "\n```".data
      = '`' :: '`' :: '`' :: '\n' :: (c ++ "\n```".data) := rfl
  rw [hshape]
  unfold FlowchartProcessor.clean_response
  rw [if_pos (by simp [pyStartsWith, List.isPrefixOf])]
  rw [pyLstrip_cons, if_pos (by decide), pyLstrip_cons, if_pos (by decide),
    pyLstrip_cons, if_pos (by decide), pyLstrip_cons, if_neg (by decide)]
  rw [pyLstrip_cons, if_neg (by decide)]
  rw [pyLstrip_cons, if_pos (by decide)]
  exact clean_response_tail c

/-- C9: the two private cleaning helpers, `FlowchartProcessor._clean_response`
and `ActionableNodeConverter._clean_response`, compute the same function on
every input, so both pipeline stages apply identical fence stripping. -/
theorem clean_response_implementations_agree (s : List Char) :
    FlowchartProcessor.clean_response s = ActionableNodeConverter.clean_response s := rfl

/-- C1 (amended): for a fenced payload of the exact canonical forms
"```json\n…\n```" or "```\n…\n```" (language tag `json` or no tag), the
fence-stripping step yields a string that parses as JSON to the same value
as the un-fenced original; on text that does not begin with a fence marker
it returns the text unchanged.  For other language tags (e.g. `JSON`) the
stripped text can fail to parse, see the counterexample. -/
theorem clean_response_fence_roundtrip :
    (∀ c v, parseJson c = some v →
      parseJson (FlowchartProcessor.clean_response ("```json\n".data ++ c ++ "\n```".data))
          = some v ∧
      parseJson (FlowchartProcessor.clean_response ("```\n".data ++ c ++ "\n```".data))
          = some v) ∧
    (∀ s, pyStartsWith "```".data s = false → FlowchartProcessor.clean_response s = s) := by
  constructor
  · intro c v h
    rw [clean_response_wrap_json, clean_response_wrap_plain, parseJson_trimNl]
    exact ⟨h, h⟩
  · intro s h
    unfold FlowchartProcessor.clean_response
    rw [if_neg (by rw [h]; simp)]

theorem clean_response_fence_roundtrip_witness :
    parseJson (FlowchartProcessor.clean_response
        ("```json\n".data ++ "[1, 2]".data ++ "\n```".data))
      = some (JsonVal.arr [JsonVal.num ['1'], JsonVal.num ['2']]) ∧
    FlowchartProcessor.clean_response "no fence".data = "no fence".data :=
  ⟨(clean_response_fence_roundtrip.1 "[1, 2]".data
      (JsonVal.arr [JsonVal.num ['1'], JsonVal.num ['2']]) (by rfl)).1,
    clean_response_fence_roundtrip.2 "no fence".data (by rfl)⟩

/-- C1 counterexample: the claim quantifies over every code-fence wrapping
with any language tag, but wrapping the valid JSON text `1` in a fence
tagged `JSON` survives cleaning as `JSON\n1`, which no longer parses:
`lstrip("json")` only strips the lowercase tag characters. -/
theorem clean_response_unknown_tag_cex :
    parseJson "1".data = some (JsonVal.num ['1']) ∧
    FlowchartProcessor.clean_response "```JSON\n1\n```".data = "JSON\n1".data ∧
    parseJson (FlowchartProcessor.clean_response "```JSON\n1\n```".data) = none :=
  ⟨rfl, rfl, rfl⟩

/-- C5 counterexample: the conversion prompt's rule reads "If the node has
only one connection, set choice to single, otherwise multiple", so a node
with zero connections maps to "multiple", not "single" as the claim
states. -/
theorem choice_rule_zero_connections_cex :
    ActionableNodeConverter.choiceRule ([] : List Nat) = "multiple".data ∧
    ActionableNodeConverter.choiceRule ([] : List Nat) ≠ "single".data :=
  ⟨rfl, by decide⟩

/-- C5 (amended): the nodes-to-actionable transformation rule maps a node
with exactly one connection to choice "single", and any other connection
count — zero included — to "multiple". -/
theorem choice_rule_spec {α : Type} (connections : List α) :
    (connections.length = 1 →
      ActionableNodeConverter.choiceRule connections = "single".data) ∧
    (connections.length ≠ 1 →
      ActionableNodeConverter.choiceRule connections = "multiple".data) := by
  unfold ActionableNodeConverter.choiceRule
  exact ⟨fun h => by rw [if_pos h], fun h => by rw [if_neg h]⟩

theorem choice_rule_spec_witness :
    ActionableNodeConverter.choiceRule [0] = "single".data ∧
    ActionableNodeConverter.choiceRule ([] : List Nat) = "multiple".data ∧
    ActionableNodeConverter.choiceRule [0, 1] = "multiple".data :=
  ⟨(choice_rule_spec [0]).1 (by decide), (choice_rule_spec ([] : List Nat)).2 (by decide),
    (choice_rule_spec [0, 1]).2 (by decide)⟩

theorem probePaths_find (pe : List Char → Bool) (l : List (List Char)) :
    (ExtractImages.probePaths pe l).1 = l.find? pe := by
  induction l with
  | nil => rfl
  | cons p ps ih =>
    by_cases h : pe p = true
    · simp [ExtractImages.probePaths, h, List.find?]
    · simp [ExtractImages.probePaths, h, List.find?, ih]

/-- C8 counterexample: the claim says an explicit rasterizer-location
override always takes precedence and skips probing, but `if not
poppler_path:` treats an explicitly supplied empty string as absent, so
the candidate directories are probed anyway. -/
theorem select_poppler_empty_override_cex :
    (ExtractImages.select_poppler (fun _ => false) [] (some [])).2.1 = true := rfl

/-- C8 (amended): with no usable override (absent or empty), the fixed
candidate directories are probed in listed order and the first existing
one wins; a non-empty explicit override skips probing and is used as
given. -/
theorem select_poppler_spec :
    (∀ pe home o, ExtractImages.optTruthy o = true →
      ExtractImages.select_poppler pe home o = (o, false, [])) ∧
    (∀ pe home o, ExtractImages.optTruthy o = false →
      (ExtractImages.select_poppler pe home o).2.1 = true ∧
      (ExtractImages.select_poppler pe home o).1
        = (ExtractImages.find_poppler_path pe home).1) ∧
    (∀ pe home, (ExtractImages.find_poppler_path pe home).1
      = (ExtractImages.common_paths home).find? pe) := by
  refine ⟨?_, ?_, ?_⟩
  · intro pe home o h
    unfold ExtractImages.select_poppler
    rw [if_pos h]
  · intro pe home o h
    unfold ExtractImages.select_poppler
    rw [if_neg (by rw [h]; simp)]
    rcases hf : ExtractImages.find_poppler_path pe home with ⟨op, lg⟩
    cases op <;> simp [hf]
  · intro pe home
    exact probePaths_find pe (ExtractImages.common_paths home)

theorem select_poppler_spec_witness :
    ExtractImages.select_poppler (fun _ => false) [] (some ['x'])
        = (some ['x'], false, []) ∧
    (ExtractImages.select_poppler (fun _ => false) [] none).2.1 = true ∧
    (ExtractImages.find_poppler_path (fun _ => true) []).1
        = (ExtractImages.common_paths []).find? (fun _ => true) :=
  ⟨select_poppler_spec.1 (fun _ => false) [] (some ['x']) (by decide),
    (select_poppler_spec.2.1 (fun _ => false) [] none (by decide)).1,
    select_poppler_spec.2.2 (fun _ => true) []⟩

/-- C10: the program's exit status is 0 exactly when the pipeline returned
a truthy actionable result; a run that succeeds with an empty list exits
with status 1, the same status as the missing-input path. -/
theorem exit_status_truthiness :
    (∀ r : Except PErr JsonVal,
      mainExit r = 0 ↔ ∃ v, r = Except.ok v ∧ pyTruthy v = true) ∧
    mainExit (Except.ok (JsonVal.arr [])) = 1 ∧
    mainExit (Except.error PErr.fileNotFound) = 1 := by
  refine ⟨?_, rfl, rfl⟩
  intro r
  constructor
  · intro h
    cases r with
    | ok v =>
      refine ⟨v, rfl, ?_⟩
      rcases Bool.eq_false_or_eq_true (pyTruthy v) with ht | hf
      · exact ht
      · simp [mainExit, mainReturn, optTruthyV, hf] at h
    | error e => cases e <;> exact absurd h (by decide)
  · rintro ⟨v, rfl, hv⟩
    simp [mainExit, mainReturn, optTruthyV, hv]

/-- C4: calling the full pipeline with a nonexistent image path raises the
file-not-found condition and neither invokes the second stage nor writes
any output file. -/
theorem process_flowchart_missing_image (env : PipeEnv)
    (img nout aout tmpl : List Char) (h : env.imageFS img = none) :
    (FlowchartPipeline.process_flowchart env img nout aout tmpl).1
        = Except.error PErr.fileNotFound ∧
    Event.calledConvertNodes ∉ (FlowchartPipeline.process_flowchart env img nout aout tmpl).2 ∧
    ∀ p, Event.wrote p ∉ (FlowchartPipeline.process_flowchart env img nout aout tmpl).2 := by
  have h1 : FlowchartProcessor.image_to_nodes env.imageFS env.stub1 img
      = (Except.error PErr.fileNotFound, []) := by
    unfold FlowchartProcessor.image_to_nodes FlowchartProcessor.load_image_as_base64
    rw [h]
  have h2 : FlowchartPipeline.process_flowchart env img nout aout tmpl
      = (Except.error PErr.fileNotFound, [Event.calledImageToNodes]) := by
    unfold FlowchartPipeline.process_flowchart
    rw [h1]
  rw [h2]
  refine ⟨rfl, by simp, fun p => by simp⟩

theorem process_flowchart_missing_image_witness :
    (FlowchartPipeline.process_flowchart
        ⟨fun _ => none, fun _ => none, [], []⟩ "img".data "n".data "a".data "t".data).1
      = Except.error PErr.fileNotFound :=
  (process_flowchart_missing_image ⟨fun _ => none, fun _ => none, [], []⟩
    "img".data "n".data "a".data "t".data rfl).1

theorem saveLoop_ok {α : Type} (folder : List Char) (saveOk : Nat → Bool)
    (l : List α) (i : Nat) (h : ∀ j, saveOk j = true) :
    ExtractImages.saveLoop folder saveOk l i
      = some
          ((List.range l.length).map (fun k => ExtractImages.pagePath folder (i + k + 1)),
           (List.range l.length).map
             (fun k => LogEntry.extracted (ExtractImages.pagePath folder (i + k + 1)))) := by
  induction l generalizing i with
  | nil => rfl
  | cons a t ih =>
    show ExtractImages.saveLoop folder saveOk (a :: t) i = _
    unfold ExtractImages.saveLoop
    rw [if_pos (h i), ih (i + 1)]
    simp only [Option.map_some', List.length_cons, List.range_succ_eq_map, List.map_cons,
      List.map_map, Option.some.injEq, Prod.mk.injEq, List.cons.injEq]
    refine ⟨⟨trivial, ?_⟩, trivial, ?_⟩ <;>
      · apply List.map_congr_left
        intro k _
        simp only [Function.comp_apply, Nat.succ_eq_add_one]
        rw [show i + 1 + k + 1 = i + (k + 1) + 1 from by omega]

theorem saveLoop_fail {α : Type} (folder : List Char) (saveOk : Nat → Bool)
    (l : List α) (i : Nat) (h : ∃ j, j < l.length ∧ saveOk (i + j) = false) :
    ExtractImages.saveLoop folder saveOk l i = none := by
  induction l generalizing i with
  | nil =>
    rcases h with ⟨j, hj, _⟩
    exact absurd hj (by simp)
  | cons a t ih =>
    unfold ExtractImages.saveLoop
    by_cases hi : saveOk i = true
    · have ht : ExtractImages.saveLoop folder saveOk t (i + 1) = none := by
        apply ih
        rcases h with ⟨j, hj, hf⟩
        cases j with
        | zero => rw [Nat.add_zero] at hf; rw [hi] at hf; cases hf
        | succ j' =>
          refine ⟨j', by simpa using hj, ?_⟩
          rw [show i + 1 + j' = i + (j' + 1) from by omega]
          exact hf
      rw [if_pos hi, ht]
      rfl
    · rw [if_neg hi]

theorem probePaths_no_extract_err (pe : List Char → Bool) (l : List (List Char)) :
    LogEntry.extractError ∉ (ExtractImages.probePaths pe l).2 := by
  induction l with
  | nil => simp [ExtractImages.probePaths]
  | cons p ps ih =>
    by_cases h : pe p = true <;> simp [ExtractImages.probePaths, h, ih]

theorem select_poppler_no_extract_err (pe : List Char → Bool) (home : List Char)
    (pp : Option (List Char)) :
    LogEntry.extractError ∉ (ExtractImages.select_poppler pe home pp).2.2 := by
  unfold ExtractImages.select_poppler
  by_cases h : ExtractImages.optTruthy pp = true
  · rw [if_pos h]
    simp
  · rw [if_neg h]
    rcases hf : ExtractImages.find_poppler_path pe home with ⟨op, lg⟩
    have hmem : LogEntry.extractError ∉ lg := by
      have hp := probePaths_no_extract_err pe (ExtractImages.common_paths home)
      unfold ExtractImages.find_poppler_path at hf
      rw [hf] at hp
      exact hp
    cases op <;> simp_all

/-- C6: when the rasterizer yields `N` pages and every page save succeeds,
the extractor returns exactly `N` paths, in page order, each named with the
zero-padded 1-based ordinal `page_001.png`, `page_002.png`, …, and prints
no error; for `N = 0` the returned sequence is empty. -/
theorem extract_images_page_paths {α : Type} (pe : List Char → Bool) (home : List Char)
    (rasterize : Option (List Char) → Except Unit (List α)) (saveOk : Nat → Bool)
    (folder : List Char) (pp : Option (List Char)) (images : List α)
    (hr : ∀ o, rasterize o = Except.ok images) (hs : ∀ j, saveOk j = true) :
    (ExtractImages.extract_images_from_pdf pe home rasterize saveOk folder pp).1
        = (List.range images.length).map (fun k => ExtractImages.pagePath folder (k + 1)) ∧
    LogEntry.extractError
        ∉ (ExtractImages.extract_images_from_pdf pe home rasterize saveOk folder pp).2 := by
  have hloop := saveLoop_ok folder saveOk images 0 hs
  have hsel := select_poppler_no_extract_err pe home pp
  simp only [ExtractImages.extract_images_from_pdf, hr _, hloop]
  constructor
  · apply List.map_congr_left
    intro k _
    rw [Nat.zero_add]
  · intro hmem
    rcases List.mem_append.mp hmem with hL | hR
    · exact hsel hL
    · rcases List.mem_map.mp hR with ⟨k, _, hk⟩
      cases hk

theorem extract_images_page_paths_witness :
    (ExtractImages.extract_images_from_pdf (fun _ => false) []
        (fun _ => Except.ok [(), ()]) (fun _ => true) "out".data none).1
      = ["out/page_001.png".data, "out/page_002.png".data] :=
  by
    have h := (extract_images_page_paths (fun _ => false) []
      (fun _ => Except.ok [(), ()]) (fun _ => true) "out".data none [(), ()]
      (fun _ => rfl) (fun _ => rfl)).1
    rw [h]
    rfl

/-- C7: whenever the external rasterizer invocation fails, or saving any
converted page fails, the extractor prints the remediation guidance and
returns an empty sequence instead of raising. -/
theorem extract_images_failure_empty {α : Type} (pe : List Char → Bool) (home : List Char)
    (rasterize : Option (List Char) → Except Unit (List α)) (saveOk : Nat → Bool)
    (folder : List Char) (pp : Option (List Char))
    (h : (∀ o, rasterize o = Except.error ()) ∨
      (∃ images, (∀ o, rasterize o = Except.ok images) ∧
        ∃ i, i < images.length ∧ saveOk i = false)) :
    (ExtractImages.extract_images_from_pdf pe home rasterize saveOk folder pp).1 = [] ∧
    LogEntry.extractError
        ∈ (ExtractImages.extract_images_from_pdf pe home rasterize saveOk folder pp).2 ∧
    LogEntry.hintInstall
        ∈ (ExtractImages.extract_images_from_pdf pe home rasterize saveOk folder pp).2 ∧
    LogEntry.hintPath
        ∈ (ExtractImages.extract_images_from_pdf pe home rasterize saveOk folder pp).2 ∧
    LogEntry.hintExplicit
        ∈ (ExtractImages.extract_images_from_pdf pe home rasterize saveOk folder pp).2 := by
  rcases h with hfail | ⟨images, hok, i, hi, hsave⟩
  · simp [ExtractImages.extract_images_from_pdf, hfail _]
  · have hloop : ExtractImages.saveLoop folder saveOk images 0 = none :=
      saveLoop_fail folder saveOk images 0 ⟨i, hi, by rw [Nat.zero_add]; exact hsave⟩
    simp [ExtractImages.extract_images_from_pdf, hok _, hloop]

theorem extract_images_failure_empty_witness :
    (ExtractImages.extract_images_from_pdf (fun _ => false) []
        (fun _ => (Except.error () : Except Unit (List Unit))) (fun _ => true)
        "out".data none).1 = [] :=
  (extract_images_failure_empty (fun _ => false) []
    (fun _ => (Except.error () : Except Unit (List Unit))) (fun _ => true) "out".data none
    (Or.inl fun _ => rfl)).1

/-! ## String escape roundtrip -/

theorem hexVal_hexDig (k : Nat) (h : k < 16) : hexVal (hexDig k) = some k := by
  interval_cases k <;> rfl

theorem char_valid_facts (c : Char) :
    c.toNat < 55296 ∨ (57344 ≤ c.toNat ∧ c.toNat < 1114112) := by
  rcases c.valid with h | ⟨h1, h2⟩
  · exact Or.inl h
  · exact Or.inr ⟨h1, h2⟩

theorem hex4_natHex4 (n : Nat) (h : n < 65536) :
    hex4 (hexDig (n / 4096 % 16)) (hexDig (n / 256 % 16)) (hexDig (n / 16 % 16))
      (hexDig (n % 16)) = some n := by
  have h1 := hexVal_hexDig (n / 4096 % 16) (Nat.mod_lt _ (by norm_num))
  have h2 := hexVal_hexDig (n / 256 % 16) (Nat.mod_lt _ (by norm_num))
  have h3 := hexVal_hexDig (n / 16 % 16) (Nat.mod_lt _ (by norm_num))
  have h4 := hexVal_hexDig (n % 16) (Nat.mod_lt _ (by norm_num))
  simp only [hex4, h1, h2, h3, h4, Option.some.injEq]
  omega

theorem parseStringBody_u_step (f n : Nat) (tail : List Char) :
    parseStringBody (f + 1) ('\\' :: 'u' :: natHex4 n ++ tail)
      = (match hex4 (hexDig (n / 4096 % 16)) (hexDig (n / 256 % 16)) (hexDig (n / 16 % 16))
            (hexDig (n % 16)) with
         | none => none
         | some k =>
           if k < 55296 || 57344 ≤ k then consMap (Char.ofNat k) (parseStringBody f tail)
           else if k < 56320 then
             match lowSurrEscape tail with
             | some (m, r3) =>
               consMap (Char.ofNat (65536 + (k - 55296) * 1024 + (m - 56320)))
                 (parseStringBody f r3)
             | none => none
           else none) := rfl

theorem parseStringBody_unicode (f n : Nat) (hn : n < 65536) (hval : n < 55296 ∨ 57344 ≤ n)
    (tail : List Char) :
    parseStringBody (f + 1) ('\\' :: 'u' :: natHex4 n ++ tail)
      = consMap (Char.ofNat n) (parseStringBody f tail) := by
  rw [parseStringBody_u_step]
  simp only [hex4_natHex4 n hn]
  rw [if_pos (by rcases hval with h | h <;> simp [h])]

theorem lowSurrEscape_encoded (m : Nat) (hm1 : 56320 ≤ m) (hm2 : m < 57344)
    (tail : List Char) :
    lowSurrEscape ('\\' :: 'u' :: natHex4 m ++ tail) = some (m, tail) := by
  have step : lowSurrEscape ('\\' :: 'u' :: hexDig (m / 4096 % 16) :: hexDig (m / 256 % 16) ::
      hexDig (m / 16 % 16) :: hexDig (m % 16) :: tail)
      = (if ('\\' : Char) = '\\' && ('u' : Char) = 'u' then
          match hex4 (hexDig (m / 4096 % 16)) (hexDig (m / 256 % 16)) (hexDig (m / 16 % 16))
              (hexDig (m % 16)) with
          | none => none
          | some k => if 56320 ≤ k && k < 57344 then some (k, tail) else none
        else none) := rfl
  show lowSurrEscape ('\\' :: 'u' :: hexDig (m / 4096 % 16) :: hexDig (m / 256 % 16) ::
    hexDig (m / 16 % 16) :: hexDig (m % 16) :: tail) = some (m, tail)
  rw [step, if_pos (by decide)]
  simp only [hex4_natHex4 m (by omega)]
  rw [if_pos (by simp only [Bool.and_eq_true, decide_eq_true_eq]; omega)]

theorem parseStringBody_astral (f n : Nat) (h1 : 65536 ≤ n) (h2 : n < 1114112)
    (tail : List Char) :
    parseStringBody (f + 1) ('\\' :: 'u' :: natHex4 (55296 + (n - 65536) / 1024) ++
        ('\\' :: 'u' :: natHex4 (56320 + (n - 65536) % 1024) ++ tail))
      = consMap (Char.ofNat n) (parseStringBody f tail) := by
  rw [parseStringBody_u_step]
  simp only [hex4_natHex4 (55296 + (n - 65536) / 1024) (by omega)]
  rw [if_neg (by simp only [Bool.or_eq_true, decide_eq_true_eq]; omega), if_pos (by omega)]
  simp only [lowSurrEscape_encoded (56320 + (n - 65536) % 1024) (by omega) (by omega) tail]
  have harith : 65536 + (55296 + (n - 65536) / 1024 - 55296) * 1024 +
      (56320 + (n - 65536) % 1024 - 56320) = n := by omega
  rw [harith]

theorem parseStringBody_lit (f : Nat) (c : Char) (tail : List Char)
    (h1 : ¬c = '"') (h2 : ¬c = '\\') (h3 : ¬c.toNat < 32) :
    parseStringBody (f + 1) (c :: tail) = consMap c (parseStringBody f tail) := by
  have step : parseStringBody (f + 1) (c :: tail)
      = (if c = '"' then some ([], tail)
         else if c = '\\' then
           match tail with
           | [] => none
           | e :: r =>
             if e = 'u' then
               match r with
               | a :: b :: c1 :: d :: r2 =>
                 match hex4 a b c1 d with
                 | none => none
                 | some n =>
                   if n < 55296 || 57344 ≤ n then consMap (Char.ofNat n) (parseStringBody f r2)
                   else if n < 56320 then
                     match lowSurrEscape r2 with
                     | some (m, r3) =>
                       consMap (Char.ofNat (65536 + (n - 55296) * 1024 + (m - 56320)))
                         (parseStringBody f r3)
                     | none => none
                   else none
               | _ => none
             else
               match escShort e with
               | some ch => consMap ch (parseStringBody f r)
               | none => none
         else if c.toNat < 32 then none
         else consMap c (parseStringBody f tail)) := rfl
  rw [step, if_neg h1, if_neg h2, if_neg h3]

theorem parseStringBody_escChar (f : Nat) (c : Char) (tail : List Char) :
    parseStringBody (f + 1) (escChar c ++ tail) = consMap c (parseStringBody f tail) := by
  by_cases h1 : c = '"'
  · subst h1; rfl
  by_cases h2 : c = '\\'
  · subst h2; rfl
  by_cases h3 : c = '\n'
  · subst h3; rfl
  by_cases h4 : c = '\r'
  · subst h4; rfl
  by_cases h5 : c = '\t'
  · subst h5; rfl
  by_cases h6 : c.toNat = 8
  · have hc : c = Char.ofNat 8 := by rw [← Char.ofNat_toNat c, h6]
    subst hc; rfl
  by_cases h7 : c.toNat = 12
  · have hc : c = Char.ofNat 12 := by rw [← Char.ofNat_toNat c, h7]
    subst hc; rfl
  by_cases h8 : c.toNat < 32
  · have hesc : escChar c = '\\' :: 'u' :: natHex4 c.toNat := by
      unfold escChar
      rw [if_neg h1, if_neg h2, if_neg h3, if_neg h4, if_neg h5, if_neg h6, if_neg h7,
        if_pos (by simp [h8]), if_pos (by omega)]
    rw [show escChar c ++ tail = '\\' :: 'u' :: natHex4 c.toNat ++ tail from
      by rw [hesc]; try simp]
    rw [parseStringBody_unicode f c.toNat (by omega) (Or.inl (by omega)) tail,
      Char.ofNat_toNat]
  by_cases h9 : c.toNat < 127
  · have hesc : escChar c = [c] := by
      unfold escChar
      rw [if_neg h1, if_neg h2, if_neg h3, if_neg h4, if_neg h5, if_neg h6, if_neg h7,
        if_neg (by simp [h8]; try omega)]
    rw [show escChar c ++ tail = c :: tail from by rw [hesc]; try simp]
    exact parseStringBody_lit f c tail h1 h2 h8
  by_cases h10 : c.toNat < 65536
  · have hval := char_valid_facts c
    have hesc : escChar c = '\\' :: 'u' :: natHex4 c.toNat := by
      unfold escChar
      rw [if_neg h1, if_neg h2, if_neg h3, if_neg h4, if_neg h5, if_neg h6, if_neg h7,
        if_pos (by simp; try omega), if_pos (by omega)]
    rw [show escChar c ++ tail = '\\' :: 'u' :: natHex4 c.toNat ++ tail from
      by rw [hesc]; try simp]
    rw [parseStringBody_unicode f c.toNat (by omega) (by omega) tail, Char.ofNat_toNat]
  · have hval := char_valid_facts c
    have hbig : c.toNat < 1114112 := by omega
    have hesc : escChar c = '\\' :: 'u' :: natHex4 (55296 + (c.toNat - 65536) / 1024) ++
        '\\' :: 'u' :: natHex4 (56320 + (c.toNat - 65536) % 1024) := by
      unfold escChar
      rw [if_neg h1, if_neg h2, if_neg h3, if_neg h4, if_neg h5, if_neg h6, if_neg h7,
        if_pos (by simp; try omega), if_neg h10]
    rw [show escChar c ++ tail
        = '\\' :: 'u' :: natHex4 (55296 + (c.toNat - 65536) / 1024) ++
          ('\\' :: 'u' :: natHex4 (56320 + (c.toNat - 65536) % 1024) ++ tail) from
      by rw [hesc]; try simp]
    rw [parseStringBody_astral f c.toNat (by omega) hbig tail, Char.ofNat_toNat]

theorem escChar_length_pos (c : Char) : 0 < (escChar c).length := by
  unfold escChar
  split_ifs <;> simp [natHex4]

theorem escStr_cons (c : Char) (s : List Char) :
    escStr (c :: s) = escChar c ++ escStr s := rfl

theorem parseStringBody_escStr (s : List Char) : ∀ f tail, (escStr s).length < f →
    parseStringBody f (escStr s ++ '"' :: tail) = some (s, tail) := by
  induction s with
  | nil =>
    intro f tail hf
    cases f with
    | zero => omega
    | succ f => rfl
  | cons c s' ih =>
    intro f tail hf
    have hcp := escChar_length_pos c
    have hlen : (escStr (c :: s')).length = (escChar c).length + (escStr s').length := by
      rw [escStr_cons, List.length_append]
    cases f with
    | zero => omega
    | succ f =>
      rw [show escStr (c :: s') ++ '"' :: tail = escChar c ++ (escStr s' ++ '"' :: tail) from
        by rw [escStr_cons]; simp]
      rw [parseStringBody_escChar f c _, ih f tail (by omega)]
      rfl

/-! ## Number token roundtrip -/

def headNotDigit : List Char → Bool
  | [] => true
  | c :: _ => !isDigitChar c

/-- A character list which, placed after a complete number token, cannot
extend it. -/
def numStopTok : List Char → Bool
  | [] => true
  | c :: _ => !(isDigitChar c || c = '.' || c = 'e' || c = 'E' || c = '+' || c = '-')

/-- What the verification needs of a stored number token: re-tokenizing it in
front of any non-extending remainder recovers exactly the token, it starts
with a digit or a minus sign, and it ends with a digit. -/
def NumWF (tok : List Char) : Prop :=
  (∀ r, numStopTok r = true → parseNumberTok (tok ++ r) = some (tok, r)) ∧
  (∃ d t, tok = d :: t ∧ (isDigitChar d = true ∨ d = '-')) ∧
  (∃ t d, tok = t ++ [d] ∧ isDigitChar d = true)

theorem char_ne_of_toNat_ne {c d : Char} (h : c.toNat ≠ d.toNat) : c ≠ d :=
  fun he => h (congrArg Char.toNat he)

theorem isDigitChar_bounds {c : Char} (h : isDigitChar c = true) :
    48 ≤ c.toNat ∧ c.toNat ≤ 57 := by
  simp [isDigitChar] at h
  exact h

theorem digit19_isDigitChar {c : Char} (h : isDigit19 c = true) : isDigitChar c = true := by
  simp [isDigit19] at h
  simp [isDigitChar]
  omega

theorem takeWhile_digits_append (ds r : List Char) (hr : headNotDigit r = true) :
    ds.all isDigitChar = true →
    (ds ++ r).takeWhile isDigitChar = ds ∧ (ds ++ r).dropWhile isDigitChar = r := by
  induction ds with
  | nil =>
    intro _
    cases r with
    | nil => simp
    | cons c t =>
      simp [headNotDigit] at hr
      simp [List.takeWhile_cons, List.dropWhile_cons, hr]
  | cons d ds' ih =>
    intro hds
    rw [List.all_cons, Bool.and_eq_true] at hds
    obtain ⟨h1, h2⟩ := ih hds.2
    simp [List.takeWhile_cons, List.dropWhile_cons, hds.1, h1, h2]

theorem all_takeWhile_self (p : Char → Bool) (l : List Char) :
    (l.takeWhile p).all p = true := by
  induction l with
  | nil => rfl
  | cons c t ih =>
    rw [List.takeWhile_cons]
    by_cases h : p c <;> simp [h, ih]

theorem numIntPart_spec {cs ip r : List Char} (h : numIntPart cs = some (ip, r)) :
    (∃ d t, ip = d :: t ∧ isDigitChar d = true) ∧
    (∃ t d, ip = t ++ [d] ∧ isDigitChar d = true) ∧
    ip.all isDigitChar = true ∧
    (∀ x, headNotDigit x = true → numIntPart (ip ++ x) = some (ip, x)) := by
  cases cs with
  | nil => cases h
  | cons c rest =>
    rw [show numIntPart (c :: rest)
        = (if c = '0' then some (['0'], rest)
           else if isDigit19 c = true then
             some (c :: rest.takeWhile isDigitChar, rest.dropWhile isDigitChar)
           else none) from rfl] at h
    by_cases hc0 : c = '0'
    · rw [if_pos hc0] at h
      obtain ⟨hip, hr⟩ : ip = ['0'] ∧ r = rest := by
        cases h
        exact ⟨rfl, rfl⟩
      subst hip
      refine ⟨⟨'0', [], rfl, by decide⟩, ⟨[], '0', rfl, by decide⟩, by decide, ?_⟩
      intro x _
      rfl
    · rw [if_neg hc0] at h
      by_cases hc19 : isDigit19 c = true
      · rw [if_pos hc19] at h
        have hcd := digit19_isDigitChar hc19
        obtain ⟨hip, hr⟩ : ip = c :: rest.takeWhile isDigitChar
            ∧ r = rest.dropWhile isDigitChar := by
          cases h
          exact ⟨rfl, rfl⟩
        subst hip
        have hall : (rest.takeWhile isDigitChar).all isDigitChar = true :=
          all_takeWhile_self isDigitChar rest
        refine ⟨⟨c, _, rfl, hcd⟩, ?_, by simp [hcd, hall], ?_⟩
        · rcases List.eq_nil_or_concat (rest.takeWhile isDigitChar) with hnil | ⟨t2, d2, he⟩
          · exact ⟨[], c, by simp [hnil], hcd⟩
          · refine ⟨c :: t2, d2, by rw [he, List.concat_eq_append]; rfl, ?_⟩
            have := all_takeWhile_self isDigitChar rest
            rw [he] at this
            simp at this
            exact this.2
        · intro x hx
          have hc0' : c ≠ '0' := hc0
          obtain ⟨htw, hdw⟩ := takeWhile_digits_append (rest.takeWhile isDigitChar) x hx hall
          show numIntPart (c :: (rest.takeWhile isDigitChar ++ x)) = _
          rw [show numIntPart (c :: (rest.takeWhile isDigitChar ++ x))
              = (if c = '0' then some (['0'], rest.takeWhile isDigitChar ++ x)
                 else if isDigit19 c = true then
                   some (c :: (rest.takeWhile isDigitChar ++ x).takeWhile isDigitChar,
                     (rest.takeWhile isDigitChar ++ x).dropWhile isDigitChar)
                 else none) from rfl]
          rw [if_neg hc0', if_pos hc19, htw, hdw]
      · rw [if_neg hc19] at h
        cases h

theorem numFracPart_skip (cs : List Char) (h : headIsChar '.' cs = false) :
    numFracPart cs = ([], cs) := by
  unfold numFracPart
  split
  · rename_i rest
    simp [headIsChar] at h
  · rfl

theorem numFracPart_present (ds : List Char) (hne : ds ≠ []) (hall : ds.all isDigitChar = true)
    (x : List Char) (hx : headNotDigit x = true) :
    numFracPart ('.' :: (ds ++ x)) = ('.' :: ds, x) := by
  obtain ⟨htw, hdw⟩ := takeWhile_digits_append ds x hx hall
  rw [show numFracPart ('.' :: (ds ++ x))
      = (if (ds ++ x).takeWhile isDigitChar = [] then ([], '.' :: (ds ++ x))
         else ('.' :: (ds ++ x).takeWhile isDigitChar, (ds ++ x).dropWhile isDigitChar))
     from rfl]
  rw [htw, hdw, if_neg hne]

theorem numExpPart_skip (cs : List Char) (h1 : headIsChar 'e' cs = false)
    (h2 : headIsChar 'E' cs = false) : numExpPart cs = ([], cs) := by
  unfold numExpPart
  split
  · rename_i e rest
    simp [headIsChar] at h1 h2
    rw [if_neg (by simp [h1, h2])]
  · rfl

theorem digit_ne_plus {d : Char} (hd : isDigitChar d = true) : d ≠ '+' := by
  apply char_ne_of_toNat_ne
  obtain ⟨hb1, hb2⟩ := isDigitChar_bounds hd
  have h43 : ('+' : Char).toNat = 43 := rfl
  omega

theorem digit_ne_minus {d : Char} (hd : isDigitChar d = true) : d ≠ '-' := by
  apply char_ne_of_toNat_ne
  obtain ⟨hb1, hb2⟩ := isDigitChar_bounds hd
  have h45 : ('-' : Char).toNat = 45 := rfl
  omega

theorem numExpPart_present_nosign (echar : Char) (he : (echar = 'e' || echar = 'E') = true)
    (d : Char) (hd : isDigitChar d = true) (ds' x : List Char)
    (hall : ds'.all isDigitChar = true) (hx : headNotDigit x = true) :
    numExpPart (echar :: (d :: (ds' ++ x))) = (echar :: d :: ds', x) := by
  obtain ⟨htw, hdw⟩ := takeWhile_digits_append ds' x hx hall
  rw [show numExpPart (echar :: (d :: (ds' ++ x)))
      = (if echar = 'e' || echar = 'E' then
          (if d = '+' || d = '-' then
            (if (ds' ++ x).takeWhile isDigitChar = [] then ([], echar :: (d :: (ds' ++ x)))
             else (echar :: d :: (ds' ++ x).takeWhile isDigitChar,
               (ds' ++ x).dropWhile isDigitChar))
          else
            (if (d :: (ds' ++ x)).takeWhile isDigitChar = []
             then ([], echar :: (d :: (ds' ++ x)))
             else (echar :: (d :: (ds' ++ x)).takeWhile isDigitChar,
               (d :: (ds' ++ x)).dropWhile isDigitChar)))
        else ([], echar :: (d :: (ds' ++ x)))) from rfl]
  rw [if_pos he, if_neg (by simp [digit_ne_plus hd, digit_ne_minus hd]),
    List.takeWhile_cons, List.dropWhile_cons]
  rw [if_pos hd, if_pos hd, htw, hdw, if_neg (by simp)]

theorem numExpPart_present_sign (echar : Char) (he : (echar = 'e' || echar = 'E') = true)
    (s : Char) (hs : s = '+' ∨ s = '-') (ds x : List Char) (hne : ds ≠ [])
    (hall : ds.all isDigitChar = true) (hx : headNotDigit x = true) :
    numExpPart (echar :: (s :: (ds ++ x))) = (echar :: s :: ds, x) := by
  obtain ⟨htw, hdw⟩ := takeWhile_digits_append ds x hx hall
  rw [show numExpPart (echar :: (s :: (ds ++ x)))
      = (if echar = 'e' || echar = 'E' then
          (if s = '+' || s = '-' then
            (if (ds ++ x).takeWhile isDigitChar = [] then ([], echar :: (s :: (ds ++ x)))
             else (echar :: s :: (ds ++ x).takeWhile isDigitChar,
               (ds ++ x).dropWhile isDigitChar))
          else
            (if (s :: (ds ++ x)).takeWhile isDigitChar = []
             then ([], echar :: (s :: (ds ++ x)))
             else (echar :: (s :: (ds ++ x)).takeWhile isDigitChar,
               (s :: (ds ++ x)).dropWhile isDigitChar)))
        else ([], echar :: (s :: (ds ++ x)))) from rfl]
  rw [if_pos he, if_pos (by rcases hs with h | h <;> simp [h]), htw, hdw, if_neg hne]

theorem headNotDigit_dropWhile (l : List Char) :
    headNotDigit (l.dropWhile isDigitChar) = true := by
  induction l with
  | nil => rfl
  | cons c t ih =>
    rw [List.dropWhile_cons]
    by_cases h : isDigitChar c = true
    · rw [if_pos h]
      exact ih
    · rw [if_neg h]
      simp [headNotDigit, h]

theorem numStopTok_props (x : List Char) (h : numStopTok x = true) :
    headNotDigit x = true ∧ headIsChar '.' x = false ∧ headIsChar 'e' x = false ∧
      headIsChar 'E' x = false ∧ headIsChar '-' x = false := by
  cases x with
  | nil => exact ⟨rfl, rfl, rfl, rfl, rfl⟩
  | cons c t =>
    simp [numStopTok] at h
    refine ⟨?_, ?_, ?_, ?_, ?_⟩ <;> simp [headNotDigit, headIsChar] <;> tauto

theorem numFracPart_inv (cs : List Char) :
    numFracPart cs = ([], cs) ∨
    (∃ ds r, cs = '.' :: (ds ++ r) ∧ numFracPart cs = ('.' :: ds, r) ∧ ds ≠ [] ∧
      ds.all isDigitChar = true ∧ headNotDigit r = true) := by
  cases cs with
  | nil => left; rfl
  | cons c rest =>
    have step : numFracPart (c :: rest)
        = (if c = '.' then
            (if rest.takeWhile isDigitChar = [] then ([], c :: rest)
             else ('.' :: rest.takeWhile isDigitChar, rest.dropWhile isDigitChar))
           else ([], c :: rest)) := by
      unfold numFracPart
      split
      · rename_i rest2 heq
        obtain ⟨hc, hrest⟩ : c = '.' ∧ rest = rest2 := by
          cases heq
          exact ⟨rfl, rfl⟩
        subst hc
        subst hrest
        rw [if_pos rfl]
      · rename_i hne
        rw [if_neg ?_]
        intro hc
        subst hc
        exact hne rest rfl
    by_cases hc : c = '.'
    · subst hc
      by_cases htw : rest.takeWhile isDigitChar = []
      · left
        rw [step, if_pos rfl, if_pos htw]
      · right
        refine ⟨rest.takeWhile isDigitChar, rest.dropWhile isDigitChar, ?_,
          by rw [step, if_pos rfl, if_neg htw], htw, all_takeWhile_self _ _,
          headNotDigit_dropWhile rest⟩
        rw [List.takeWhile_append_dropWhile]
    · left
      rw [step, if_neg hc]

theorem numExpPart_inv (cs : List Char) :
    numExpPart cs = ([], cs) ∨
    (∃ echar sign ds r, cs = echar :: (sign ++ (ds ++ r)) ∧
      numExpPart cs = (echar :: (sign ++ ds), r) ∧ (echar = 'e' || echar = 'E') = true ∧
      (sign = [] ∨ sign = ['+'] ∨ sign = ['-']) ∧ ds ≠ [] ∧ ds.all isDigitChar = true ∧
      headNotDigit r = true) := by
  cases cs with
  | nil => left; rfl
  | cons e rest =>
    by_cases he : (e = 'e' || e = 'E') = true
    · cases rest with
      | nil =>
        left
        have step : numExpPart (e :: ([] : List Char))
            = (if e = 'e' || e = 'E' then ([], [e]) else ([], [e])) := rfl
        rw [step, ite_self]
      | cons s rest2 =>
        have step : numExpPart (e :: (s :: rest2))
            = (if e = 'e' || e = 'E' then
                (if s = '+' || s = '-' then
                  (if rest2.takeWhile isDigitChar = [] then ([], e :: s :: rest2)
                   else (e :: s :: rest2.takeWhile isDigitChar,
                     rest2.dropWhile isDigitChar))
                else
                  (if (s :: rest2).takeWhile isDigitChar = [] then ([], e :: s :: rest2)
                   else (e :: (s :: rest2).takeWhile isDigitChar,
                     (s :: rest2).dropWhile isDigitChar)))
              else ([], e :: s :: rest2)) := rfl
        by_cases hs : (s = '+' || s = '-') = true
        · by_cases htw : rest2.takeWhile isDigitChar = []
          · left
            rw [step, if_pos he, if_pos hs, if_pos htw]
          · right
            refine ⟨e, [s], rest2.takeWhile isDigitChar, rest2.dropWhile isDigitChar,
              by simp [List.takeWhile_append_dropWhile],
              by rw [step, if_pos he, if_pos hs, if_neg htw]; rfl, he, ?_, htw,
              all_takeWhile_self _ _, headNotDigit_dropWhile rest2⟩
            rcases Bool.or_eq_true_iff.mp hs with h | h
            · exact Or.inr (Or.inl (by simp at h; rw [h]))
            · exact Or.inr (Or.inr (by simp at h; rw [h]))
        · by_cases htw : (s :: rest2).takeWhile isDigitChar = []
          · left
            rw [step, if_pos he, if_neg (by simp [hs]), if_pos htw]
          · right
            refine ⟨e, [], (s :: rest2).takeWhile isDigitChar,
              (s :: rest2).dropWhile isDigitChar,
              by simp [List.takeWhile_append_dropWhile],
              by rw [step, if_pos he, if_neg (by simp [hs]), if_neg htw]; rfl, he,
              Or.inl rfl, htw, all_takeWhile_self _ _, headNotDigit_dropWhile _⟩
    · left
      cases rest with
      | nil =>
        have step : numExpPart (e :: ([] : List Char))
            = (if e = 'e' || e = 'E' then ([], [e]) else ([], [e])) := rfl
        rw [step, ite_self]
      | cons s rest2 =>
        have step : numExpPart (e :: (s :: rest2))
            = (if e = 'e' || e = 'E' then
                (if s = '+' || s = '-' then
                  (if rest2.takeWhile isDigitChar = [] then ([], e :: s :: rest2)
                   else (e :: s :: rest2.takeWhile isDigitChar,
                     rest2.dropWhile isDigitChar))
                else
                  (if (s :: rest2).takeWhile isDigitChar = [] then ([], e :: s :: rest2)
                   else (e :: (s :: rest2).takeWhile isDigitChar,
                     (s :: rest2).dropWhile isDigitChar)))
              else ([], e :: s :: rest2)) := rfl
        rw [step, if_neg (by simp [he])]

theorem num_core_rerun (ip f1 e1 : List Char)
    (hint : ∀ x, headNotDigit x = true → numIntPart (ip ++ x) = some (ip, x))
    (hfrac : f1 = [] ∨ (∃ ds, f1 = '.' :: ds ∧ ds ≠ [] ∧ ds.all isDigitChar = true))
    (hexp : e1 = [] ∨ (∃ echar sign ds, e1 = echar :: (sign ++ ds) ∧
      (echar = 'e' || echar = 'E') = true ∧ (sign = [] ∨ sign = ['+'] ∨ sign = ['-']) ∧
      ds ≠ [] ∧ ds.all isDigitChar = true))
    (x : List Char) (hx : numStopTok x = true) :
    numIntPart (ip ++ (f1 ++ (e1 ++ x))) = some (ip, f1 ++ (e1 ++ x)) ∧
    numFracPart (f1 ++ (e1 ++ x)) = (f1, e1 ++ x) ∧
    numExpPart (e1 ++ x) = (e1, x) := by
  obtain ⟨hxd, hxdot, hxe, hxE, hxm⟩ := numStopTok_props x hx
  have hex_nd : headNotDigit (e1 ++ x) = true := by
    rcases hexp with he0 | ⟨echar, sign, ds, he1, hee, _, _, _⟩
    · rw [he0]; exact hxd
    · rw [he1]
      rcases Bool.or_eq_true_iff.mp hee with h | h <;> simp at h <;> subst h <;> rfl
  have hex_dot : headIsChar '.' (e1 ++ x) = false := by
    rcases hexp with he0 | ⟨echar, sign, ds, he1, hee, _, _, _⟩
    · rw [he0]; exact hxdot
    · rw [he1]
      rcases Bool.or_eq_true_iff.mp hee with h | h <;> simp at h <;> subst h <;> rfl
  have hfx_nd : headNotDigit (f1 ++ (e1 ++ x)) = true := by
    rcases hfrac with hf0 | ⟨ds, hf1, _, _⟩
    · rw [hf0]; exact hex_nd
    · rw [hf1]; rfl
  refine ⟨hint _ hfx_nd, ?_, ?_⟩
  · rcases hfrac with hf0 | ⟨ds, hf1, hdne, hdall⟩
    · rw [hf0]
      simpa using numFracPart_skip _ hex_dot
    · rw [hf1]
      rw [show ('.' :: ds) ++ (e1 ++ x) = '.' :: (ds ++ (e1 ++ x)) from rfl]
      exact numFracPart_present ds hdne hdall _ hex_nd
  · rcases hexp with he0 | ⟨echar, sign, ds, he1, hee, hsgn, hdne, hdall⟩
    · rw [he0]
      simpa using numExpPart_skip x hxe hxE
    · subst he1
      rcases hsgn with hs0 | hs1 | hs2
      · subst hs0
        cases ds with
        | nil => exact absurd rfl hdne
        | cons d ds' =>
          have hd : isDigitChar d = true := by
            rw [List.all_cons, Bool.and_eq_true] at hdall
            exact hdall.1
          have hall' : ds'.all isDigitChar = true := by
            rw [List.all_cons, Bool.and_eq_true] at hdall
            exact hdall.2
          rw [show (echar :: (([] : List Char) ++ (d :: ds'))) ++ x
              = echar :: (d :: (ds' ++ x)) from by simp]
          rw [numExpPart_present_nosign echar hee d hd ds' x hall' hxd]
          simp
      · subst hs1
        rw [show (echar :: ((['+'] : List Char) ++ ds)) ++ x
            = echar :: ('+' :: (ds ++ x)) from by simp]
        rw [numExpPart_present_sign echar hee '+' (Or.inl rfl) ds x hdne hdall hxd]
        simp
      · subst hs2
        rw [show (echar :: ((['-'] : List Char) ++ ds)) ++ x
            = echar :: ('-' :: (ds ++ x)) from by simp]
        rw [numExpPart_present_sign echar hee '-' (Or.inr rfl) ds x hdne hdall hxd]
        simp

theorem parseNumberTok_minus_step (z : List Char) :
    parseNumberTok ('-' :: z)
      = (match numIntPart z with
         | none => none
         | some (ip, r1) =>
           some ('-' :: (ip ++ (numFracPart r1).1 ++ (numExpPart (numFracPart r1).2).1),
             (numExpPart (numFracPart r1).2).2)) := rfl

theorem parseNumberTok_not_minus (z : List Char) (hz : headIsChar '-' z = false) :
    parseNumberTok z
      = (match numIntPart z with
         | none => none
         | some (ip, r1) =>
           some (ip ++ (numFracPart r1).1 ++ (numExpPart (numFracPart r1).2).1,
             (numExpPart (numFracPart r1).2).2)) := by
  unfold parseNumberTok
  split
  · rename_i rest
    simp [headIsChar] at hz
  · rfl

theorem all_digit_concat (ds : List Char) (hne : ds ≠ []) (hall : ds.all isDigitChar = true) :
    ∃ t d, ds = t ++ [d] ∧ isDigitChar d = true := by
  rcases List.eq_nil_or_concat ds with h | ⟨t, d, h⟩
  · exact absurd h hne
  · refine ⟨t, d, by rw [h, List.concat_eq_append], ?_⟩
    rw [h, List.concat_eq_append, List.all_append] at hall
    simp at hall
    exact hall.2

theorem num_core_last (ip f1 e1 : List Char)
    (hlast : ∃ t d, ip = t ++ [d] ∧ isDigitChar d = true)
    (hfrac : f1 = [] ∨ (∃ ds, f1 = '.' :: ds ∧ ds ≠ [] ∧ ds.all isDigitChar = true))
    (hexp : e1 = [] ∨ (∃ echar sign ds, e1 = echar :: (sign ++ ds) ∧
      (echar = 'e' || echar = 'E') = true ∧ (sign = [] ∨ sign = ['+'] ∨ sign = ['-']) ∧
      ds ≠ [] ∧ ds.all isDigitChar = true)) :
    ∃ t d, ip ++ f1 ++ e1 = t ++ [d] ∧ isDigitChar d = true := by
  rcases hexp with he0 | ⟨echar, sign, ds, he1, _, _, hdne, hdall⟩
  · rcases hfrac with hf0 | ⟨ds, hf1, hdne, hdall⟩
    · obtain ⟨t2, d, hip, hd⟩ := hlast
      refine ⟨t2, d, ?_, hd⟩
      rw [he0, hf0, hip]
      simp
    · obtain ⟨t2, d, hds, hd⟩ := all_digit_concat ds hdne hdall
      refine ⟨ip ++ '.' :: t2, d, ?_, hd⟩
      rw [he0, hf1, hds]
      simp
  · obtain ⟨t2, d, hds, hd⟩ := all_digit_concat ds hdne hdall
    refine ⟨ip ++ f1 ++ echar :: (sign ++ t2), d, ?_, hd⟩
    rw [he1, hds]
    simp

theorem frac_shape (r1 : List Char) :
    (numFracPart r1).1 = [] ∨
    (∃ ds, (numFracPart r1).1 = '.' :: ds ∧ ds ≠ [] ∧ ds.all isDigitChar = true) := by
  rcases numFracPart_inv r1 with hf | ⟨ds, r2x, _, hfeq, hdne, hdall, _⟩
  · left; rw [hf]
  · right; exact ⟨ds, by rw [hfeq], hdne, hdall⟩

theorem exp_shape (z : List Char) :
    (numExpPart z).1 = [] ∨
    (∃ echar sign ds, (numExpPart z).1 = echar :: (sign ++ ds) ∧
      (echar = 'e' || echar = 'E') = true ∧ (sign = [] ∨ sign = ['+'] ∨ sign = ['-']) ∧
      ds ≠ [] ∧ ds.all isDigitChar = true) := by
  rcases numExpPart_inv z with he | ⟨ec, sg, ds, rr, hcs, heeq, hee, hsg, hdne, hdall, _⟩
  · left; rw [he]
  · right; exact ⟨ec, sg, ds, by rw [heeq], hee, hsg, hdne, hdall⟩

theorem num_core_wf (ip r1 : List Char)
    (hhead : ∃ d t, ip = d :: t ∧ isDigitChar d = true)
    (hlast : ∃ t d, ip = t ++ [d] ∧ isDigitChar d = true)
    (hrerun : ∀ x, headNotDigit x = true → numIntPart (ip ++ x) = some (ip, x)) :
    NumWF (ip ++ (numFracPart r1).1 ++ (numExpPart (numFracPart r1).2).1) := by
  refine ⟨?_, ?_, num_core_last _ _ _ hlast (frac_shape r1) (exp_shape _)⟩
  · intro x hx
    obtain ⟨hi2, hf2, he2⟩ :=
      num_core_rerun ip _ _ hrerun (frac_shape r1) (exp_shape _) x hx
    have hnm : headIsChar '-'
        ((ip ++ (numFracPart r1).1 ++ (numExpPart (numFracPart r1).2).1) ++ x) = false := by
      obtain ⟨d, t2, hip, hd⟩ := hhead
      rw [hip]
      simp [headIsChar, digit_ne_minus hd]
    rw [parseNumberTok_not_minus _ hnm]
    rw [show (ip ++ (numFracPart r1).1 ++ (numExpPart (numFracPart r1).2).1) ++ x
        = ip ++ ((numFracPart r1).1 ++ ((numExpPart (numFracPart r1).2).1 ++ x)) from by
      simp [List.append_assoc]]
    rw [hi2]
    simp only [hf2, he2]
  · obtain ⟨d, t2, hip, hd⟩ := hhead
    exact ⟨d, t2 ++ (numFracPart r1).1 ++ (numExpPart (numFracPart r1).2).1,
      by rw [hip]; simp, Or.inl hd⟩

theorem parseNumberTok_spec {cs t r : List Char} (h : parseNumberTok cs = some (t, r)) :
    NumWF t := by
  cases cs with
  | nil => cases h
  | cons c cs' =>
    by_cases hm : c = '-'
    · subst hm
      rw [parseNumberTok_minus_step] at h
      cases hip : numIntPart cs' with
      | none => rw [hip] at h; cases h
      | some p =>
        obtain ⟨ip, r1⟩ := p
        rw [hip] at h
        obtain ⟨hhead, hlast, _, hrerun⟩ := numIntPart_spec hip
        have ht : '-' :: (ip ++ (numFracPart r1).1 ++ (numExpPart (numFracPart r1).2).1)
            = t := by
          cases h
          rfl
        subst ht
        refine ⟨?_, ⟨'-', _, rfl, Or.inr rfl⟩, ?_⟩
        · intro x hx
          show parseNumberTok ('-' ::
            ((ip ++ (numFracPart r1).1 ++ (numExpPart (numFracPart r1).2).1) ++ x)) = _
          rw [parseNumberTok_minus_step]
          rw [show (ip ++ (numFracPart r1).1 ++ (numExpPart (numFracPart r1).2).1) ++ x
              = ip ++ ((numFracPart r1).1 ++ ((numExpPart (numFracPart r1).2).1 ++ x)) from by
            simp [List.append_assoc]]
          obtain ⟨hi2, hf2, he2⟩ :=
            num_core_rerun ip _ _ hrerun (frac_shape r1) (exp_shape _) x hx
          rw [hi2]
          simp only [hf2, he2]
        · obtain ⟨t2, d, hc, hd⟩ :=
            num_core_last ip _ _ hlast (frac_shape r1) (exp_shape _)
          exact ⟨'-' :: t2, d, by rw [hc]; rfl, hd⟩
    · have hnm : headIsChar '-' (c :: cs') = false := by simp [headIsChar, hm]
      rw [parseNumberTok_not_minus _ hnm] at h
      cases hip : numIntPart (c :: cs') with
      | none => rw [hip] at h; cases h
      | some p =>
        obtain ⟨ip, r1⟩ := p
        rw [hip] at h
        obtain ⟨hhead, hlast, _, hrerun⟩ := numIntPart_spec hip
        have ht : ip ++ (numFracPart r1).1 ++ (numExpPart (numFracPart r1).2).1 = t := by
          cases h
          rfl
        subst ht
        exact num_core_wf ip r1 hhead hlast hrerun

/-! ## Value well-formedness and the printer-parser roundtrip -/

mutual

/-- What `json.loads` guarantees of a parsed value: number tokens re-tokenize
to themselves, object keys are distinct at every level. -/
def WFv : JsonVal → Prop
  | JsonVal.null => True
  | JsonVal.bool _ => True
  | JsonVal.num t => NumWF t
  | JsonVal.str _ => True
  | JsonVal.arr l => WFl l
  | JsonVal.obj m => (m.map Prod.fst).Nodup ∧ WFm m

def WFl : List JsonVal → Prop
  | [] => True
  | v :: vs => WFv v ∧ WFl vs

def WFm : List (List Char × JsonVal) → Prop
  | [] => True
  | kv :: kvs => WFv kv.2 ∧ WFm kvs

end

mutual

/-- Fuel measure: an upper bound on the recursion depth the fuelled parser
spends re-reading a rendered value. -/
def szV : JsonVal → Nat
  | JsonVal.arr [] => 1
  | JsonVal.arr (x :: xs) => 1 + szV x + szItems xs
  | JsonVal.obj [] => 1
  | JsonVal.obj (kv :: kvs) => 1 + (1 + szV kv.2) + szMems kvs
  | _ => 1

def szItems : List JsonVal → Nat
  | [] => 1
  | x :: xs => 1 + szV x + szItems xs

def szMems : List (List Char × JsonVal) → Nat
  | [] => 1
  | kv :: kvs => 1 + (1 + szV kv.2) + szMems kvs

end

theorem szV_pos (v : JsonVal) : 1 ≤ szV v := by
  cases v with
  | arr l => cases l <;> simp [szV] <;> omega
  | obj m => cases m <;> simp [szV] <;> omega
  | null => simp [szV]
  | bool b => simp [szV]
  | num t => simp [szV]
  | str s => simp [szV]

theorem szItems_pos (l : List JsonVal) : 1 ≤ szItems l := by
  cases l <;> simp [szItems] <;> omega

theorem szMems_pos (m : List (List Char × JsonVal)) : 1 ≤ szMems m := by
  cases m <;> simp [szMems] <;> omega

theorem skipWs_cons_ws (c : Char) (z : List Char) (h : isWsChar c = true) :
    skipWs (c :: z) = skipWs z := by
  unfold skipWs
  rw [List.dropWhile_cons, if_pos h]

theorem skipWs_cons_not_ws (c : Char) (z : List Char) (h : isWsChar c = false) :
    skipWs (c :: z) = c :: z := by
  unfold skipWs
  rw [List.dropWhile_cons, if_neg (by simp [h])]

theorem skipWs_sp (n : Nat) (z : List Char) : skipWs (sp n ++ z) = skipWs z := by
  induction n with
  | zero => rfl
  | succ n ih =>
    rw [show sp (n + 1) ++ z = ' ' :: (sp n ++ z) from by simp [sp, List.replicate_succ]]
    rw [skipWs_cons_ws ' ' _ (by decide), ih]

theorem num_head_props {d : Char} (h : 48 ≤ d.toNat ∧ d.toNat ≤ 57 ∨ d.toNat = 45) :
    isWsChar d = false ∧ d ≠ ']' ∧ d ≠ Char.ofNat 125 ∧ d ≠ ',' ∧ d ≠ ':' := by
  have h32 : (' ' : Char).toNat = 32 := rfl
  have h9 : ('\t' : Char).toNat = 9 := rfl
  have h10 : ('\n' : Char).toNat = 10 := rfl
  have h13 : ('\r' : Char).toNat = 13 := rfl
  have h93 : (']' : Char).toNat = 93 := rfl
  have h125 : (Char.ofNat 125).toNat = 125 := rfl
  have h44 : (',' : Char).toNat = 44 := rfl
  have h58 : (':' : Char).toNat = 58 := rfl
  have hsp : d ≠ ' ' := char_ne_of_toNat_ne (by rw [h32]; omega)
  have htb : d ≠ '\t' := char_ne_of_toNat_ne (by rw [h9]; omega)
  have hnl : d ≠ '\n' := char_ne_of_toNat_ne (by rw [h10]; omega)
  have hcr : d ≠ '\r' := char_ne_of_toNat_ne (by rw [h13]; omega)
  refine ⟨by simp [isWsChar, hsp, htb, hnl, hcr], char_ne_of_toNat_ne (by rw [h93]; omega),
    char_ne_of_toNat_ne (by rw [h125]; omega), char_ne_of_toNat_ne (by rw [h44]; omega),
    char_ne_of_toNat_ne (by rw [h58]; omega)⟩

/-- The first character of a rendered value: never whitespace and never a
closing delimiter, a comma or a colon. -/
theorem renderV_head (ind : Nat) (v : JsonVal) (hwf : WFv v) :
    ∃ c t, renderV ind v = c :: t ∧ isWsChar c = false ∧ c ≠ ']' ∧ c ≠ Char.ofNat 125 ∧
      c ≠ ',' ∧ c ≠ ':' := by
  cases v with
  | null => exact ⟨'n', _, rfl, by decide, by decide, by decide, by decide, by decide⟩
  | bool b =>
    cases b with
    | true => exact ⟨'t', _, rfl, by decide, by decide, by decide, by decide, by decide⟩
    | false => exact ⟨'f', _, rfl, by decide, by decide, by decide, by decide, by decide⟩
  | num t =>
    obtain ⟨_, ⟨d, t2, ht, hd⟩, _⟩ := hwf
    have htN : 48 ≤ d.toNat ∧ d.toNat ≤ 57 ∨ d.toNat = 45 := by
      rcases hd with hd | hd
      · exact Or.inl (isDigitChar_bounds hd)
      · subst hd; exact Or.inr rfl
    obtain ⟨p1, p2, p3, p4, p5⟩ := num_head_props htN
    exact ⟨d, t2, by rw [show renderV ind (JsonVal.num t) = t from rfl, ht], p1, p2, p3, p4, p5⟩
  | str s => exact ⟨'"', _, rfl, by decide, by decide, by decide, by decide, by decide⟩
  | arr l =>
    cases l with
    | nil => exact ⟨'[', _, rfl, by decide, by decide, by decide, by decide, by decide⟩
    | cons x xs =>
      exact ⟨'[', _, rfl, by decide, by decide, by decide, by decide, by decide⟩
  | obj m =>
    cases m with
    | nil =>
      exact ⟨Char.ofNat 123, _, rfl, by decide, by decide, by decide, by decide, by decide⟩
    | cons kv kvs =>
      exact ⟨Char.ofNat 123, _, rfl, by decide, by decide, by decide, by decide, by decide⟩

theorem WFl_iff (l : List JsonVal) : WFl l ↔ ∀ v ∈ l, WFv v := by
  induction l with
  | nil => simp [WFl]
  | cons x xs ih => simp [WFl, ih]

theorem WFm_iff (m : List (List Char × JsonVal)) : WFm m ↔ ∀ kv ∈ m, WFv kv.2 := by
  induction m with
  | nil => simp [WFm]
  | cons kv kvs ih => simp [WFm, ih]

theorem dictInsert_fresh (m : List (List Char × JsonVal)) (k : List Char) (v : JsonVal)
    (h : k ∉ m.map Prod.fst) : dictInsert m k v = m ++ [(k, v)] := by
  induction m with
  | nil => rfl
  | cons kv0 t ih =>
    obtain ⟨k0, v0⟩ := kv0
    simp only [List.map_cons, List.mem_cons] at h
    push_neg at h
    unfold dictInsert
    rw [if_neg (fun he => h.1 he.symm), ih h.2]
    rfl

theorem dictInsert_keys (m : List (List Char × JsonVal)) (k : List Char) (v : JsonVal) :
    (dictInsert m k v).map Prod.fst
      = if k ∈ m.map Prod.fst then m.map Prod.fst else m.map Prod.fst ++ [k] := by
  induction m with
  | nil => rfl
  | cons kv0 t ih =>
    obtain ⟨k0, v0⟩ := kv0
    by_cases he : k0 = k
    · subst he
      unfold dictInsert
      rw [if_pos rfl]
      simp
    · unfold dictInsert
      rw [if_neg he]
      simp only [List.map_cons, ih]
      by_cases hm : k ∈ t.map Prod.fst
      · rw [if_pos hm, if_pos (by simp [hm])]
      · rw [if_neg hm, if_neg ?_]
        · rfl
        · simp only [List.map_cons, List.mem_cons]
          push_neg
          exact ⟨fun hx => he hx.symm, hm⟩

theorem dictInsert_nodup (m : List (List Char × JsonVal)) (k : List Char) (v : JsonVal)
    (h : (m.map Prod.fst).Nodup) : ((dictInsert m k v).map Prod.fst).Nodup := by
  rw [dictInsert_keys]
  by_cases hm : k ∈ m.map Prod.fst
  · rw [if_pos hm]
    exact h
  · rw [if_neg hm]
    simp [List.nodup_append, h, hm]

theorem dictInsert_val_mem (m : List (List Char × JsonVal)) (k : List Char) (v : JsonVal)
    (q : List Char × JsonVal) (h : q ∈ dictInsert m k v) : q.2 = v ∨ q ∈ m := by
  induction m with
  | nil =>
    simp [dictInsert] at h
    subst h
    exact Or.inl rfl
  | cons kv0 t ih =>
    obtain ⟨k0, v0⟩ := kv0
    unfold dictInsert at h
    by_cases he : k0 = k
    · rw [if_pos he] at h
      rcases List.mem_cons.mp h with h1 | h1
      · subst h1
        exact Or.inl rfl
      · exact Or.inr (List.mem_cons.mpr (Or.inr h1))
    · rw [if_neg he] at h
      rcases List.mem_cons.mp h with h1 | h1
      · subst h1
        exact Or.inr (List.mem_cons.mpr (Or.inl rfl))
      · rcases ih h1 with h2 | h2
        · exact Or.inl h2
        · exact Or.inr (List.mem_cons.mpr (Or.inr h2))

theorem buildDict_go_nodup (ps acc : List (List Char × JsonVal))
    (h : (acc.map Prod.fst).Nodup) :
    ((ps.foldl (fun a kv => dictInsert a kv.1 kv.2) acc).map Prod.fst).Nodup := by
  induction ps generalizing acc with
  | nil => exact h
  | cons kv t ih =>
    rw [List.foldl_cons]
    exact ih _ (dictInsert_nodup _ _ _ h)

theorem buildDict_nodup (ps : List (List Char × JsonVal)) :
    ((buildDict ps).map Prod.fst).Nodup :=
  buildDict_go_nodup ps [] (by simp)

theorem buildDict_go_val_mem (ps acc : List (List Char × JsonVal))
    (q : List Char × JsonVal)
    (h : q ∈ ps.foldl (fun a kv => dictInsert a kv.1 kv.2) acc) :
    q ∈ acc ∨ q.2 ∈ ps.map Prod.snd := by
  induction ps generalizing acc with
  | nil => exact Or.inl h
  | cons kv t ih =>
    rw [List.foldl_cons] at h
    rcases ih _ h with h1 | h1
    · rcases dictInsert_val_mem _ _ _ _ h1 with h2 | h2
      · exact Or.inr (by simp [h2])
      · exact Or.inl h2
    · exact Or.inr (by simp [h1])

theorem buildDict_val_mem (ps : List (List Char × JsonVal)) (q : List Char × JsonVal)
    (h : q ∈ buildDict ps) : q.2 ∈ ps.map Prod.snd := by
  rcases buildDict_go_val_mem ps [] q h with h1 | h1
  · simp at h1
  · exact h1

theorem buildDict_go_self (m acc : List (List Char × JsonVal))
    (h : ((acc ++ m).map Prod.fst).Nodup) :
    m.foldl (fun a kv => dictInsert a kv.1 kv.2) acc = acc ++ m := by
  induction m generalizing acc with
  | nil => simp
  | cons kv t ih =>
    rw [List.foldl_cons]
    have hk : kv.1 ∉ acc.map Prod.fst := by
      rw [List.map_append, List.nodup_append] at h
      intro hmem
      exact h.2.2 hmem (by simp)
    rw [dictInsert_fresh _ _ _ hk, ih (acc ++ [kv]) (by simpa [List.append_assoc] using h)]
    simp

theorem buildDict_self (m : List (List Char × JsonVal)) (h : (m.map Prod.fst).Nodup) :
    buildDict m = m := by
  have := buildDict_go_self m [] (by simpa using h)
  simpa using this

theorem parseValue_str_step (f : Nat) (cs' : List Char) :
    parseValue (f + 1) ('"' :: cs')
      = (match parseStringBody (cs'.length + 1) cs' with
         | some (s, r) => some (JsonVal.str s, r)
         | none => none) := rfl

theorem parseValue_arr_step (f : Nat) (cs' : List Char) :
    parseValue (f + 1) ('[' :: cs')
      = (if headIsChar ']' (skipWs cs') then some (JsonVal.arr [], (skipWs cs').tail)
         else
           match parseValue f (skipWs cs') with
           | some (v, r1) =>
             match parseArrRest f (skipWs r1) with
             | some (vs, r2) => some (JsonVal.arr (v :: vs), r2)
             | none => none
           | none => none) := rfl

theorem parseValue_obj_step (f : Nat) (cs' : List Char) :
    parseValue (f + 1) (Char.ofNat 123 :: cs')
      = (if headIsChar (Char.ofNat 125) (skipWs cs') then
          some (JsonVal.obj [], (skipWs cs').tail)
         else
           match parseMember f (skipWs cs') with
           | some (kv, r1) =>
             match parseObjRest f (skipWs r1) with
             | some (kvs, r2) => some (JsonVal.obj (buildDict (kv :: kvs)), r2)
             | none => none
           | none => none) := rfl

theorem parseValue_num_step (f : Nat) (c : Char) (cs' : List Char)
    (h1 : ¬c = 'n') (h2 : ¬c = 't') (h3 : ¬c = 'f') (h4 : ¬c = '"') (h5 : ¬c = '[')
    (h6 : ¬c = Char.ofNat 123) :
    parseValue (f + 1) (c :: cs')
      = (match parseNumberTok (c :: cs') with
         | some (t, r) => some (JsonVal.num t, r)
         | none => none) := by
  have step : parseValue (f + 1) (c :: cs')
      = (if c = 'n' then expectLit (c :: cs') ['n', 'u', 'l', 'l'] JsonVal.null
         else if c = 't' then expectLit (c :: cs') ['t', 'r', 'u', 'e'] (JsonVal.bool true)
         else if c = 'f' then expectLit (c :: cs') ['f', 'a', 'l', 's', 'e'] (JsonVal.bool false)
         else if c = '"' then
           match parseStringBody (cs'.length + 1) cs' with
           | some (s, r) => some (JsonVal.str s, r)
           | none => none
         else if c = '[' then
           if headIsChar ']' (skipWs cs') then some (JsonVal.arr [], (skipWs cs').tail)
           else
             match parseValue f (skipWs cs') with
             | some (v, r1) =>
               match parseArrRest f (skipWs r1) with
               | some (vs, r2) => some (JsonVal.arr (v :: vs), r2)
               | none => none
             | none => none
         else if c = Char.ofNat 123 then
           if headIsChar (Char.ofNat 125) (skipWs cs') then
             some (JsonVal.obj [], (skipWs cs').tail)
           else
             match parseMember f (skipWs cs') with
             | some (kv, r1) =>
               match parseObjRest f (skipWs r1) with
               | some (kvs, r2) => some (JsonVal.obj (buildDict (kv :: kvs)), r2)
               | none => none
             | none => none
         else
           match parseNumberTok (c :: cs') with
           | some (t, r) => some (JsonVal.num t, r)
           | none => none) := rfl
  rw [step, if_neg h1, if_neg h2, if_neg h3, if_neg h4, if_neg h5, if_neg h6]

theorem parseArrRest_step (f : Nat) (cs : List Char) :
    parseArrRest (f + 1) cs
      = (if headIsChar ']' cs then some ([], cs.tail)
         else if headIsChar ',' cs then
           match parseValue f (skipWs cs.tail) with
           | some (v, r1) =>
             match parseArrRest f (skipWs r1) with
             | some (vs, r2) => some (v :: vs, r2)
             | none => none
           | none => none
         else none) := rfl

theorem parseMember_step (f : Nat) (cs : List Char) :
    parseMember (f + 1) cs
      = (if headIsChar '"' cs then
          match parseStringBody (cs.tail.length + 1) cs.tail with
          | some (k, r1) =>
            if headIsChar ':' (skipWs r1) then
              match parseValue f (skipWs (skipWs r1).tail) with
              | some (v, r3) => some ((k, v), r3)
              | none => none
            else none
          | none => none
         else none) := rfl

theorem parseObjRest_step (f : Nat) (cs : List Char) :
    parseObjRest (f + 1) cs
      = (if headIsChar (Char.ofNat 125) cs then some ([], cs.tail)
         else if headIsChar ',' cs then
           match parseMember f (skipWs cs.tail) with
           | some (kv, r1) =>
             match parseObjRest f (skipWs r1) with
             | some (kvs, r2) => some (kv :: kvs, r2)
             | none => none
           | none => none
         else none) := rfl

/-- The remainder following a rendered value must not be able to extend it;
only number tokens are extendable. -/
def valStop : JsonVal → List Char → Prop
  | JsonVal.num _, r => numStopTok r = true
  | _, _ => True

theorem valStop_cons (v : JsonVal) (c : Char) (z : List Char)
    (h : (!(isDigitChar c || c = '.' || c = 'e' || c = 'E' || c = '+' || c = '-')) = true) :
    valStop v (c :: z) := by
  cases v <;> trivial

theorem num_head_dispatch {d : Char} (h : 48 ≤ d.toNat ∧ d.toNat ≤ 57 ∨ d.toNat = 45) :
    ¬d = 'n' ∧ ¬d = 't' ∧ ¬d = 'f' ∧ ¬d = '"' ∧ ¬d = '[' ∧ ¬d = Char.ofNat 123 := by
  have hn : ('n' : Char).toNat = 110 := rfl
  have ht : ('t' : Char).toNat = 116 := rfl
  have hf : ('f' : Char).toNat = 102 := rfl
  have hq : ('"' : Char).toNat = 34 := rfl
  have hb : ('[' : Char).toNat = 91 := rfl
  have ho : (Char.ofNat 123).toNat = 123 := rfl
  exact ⟨char_ne_of_toNat_ne (by rw [hn]; omega), char_ne_of_toNat_ne (by rw [ht]; omega),
    char_ne_of_toNat_ne (by rw [hf]; omega), char_ne_of_toNat_ne (by rw [hq]; omega),
    char_ne_of_toNat_ne (by rw [hb]; omega), char_ne_of_toNat_ne (by rw [ho]; omega)⟩

theorem valStop_eq_cons (v : JsonVal) (r : List Char) (c : Char) (z : List Char)
    (he : r = c :: z)
    (h : (!(isDigitChar c || c = '.' || c = 'e' || c = 'E' || c = '+' || c = '-')) = true) :
    valStop v r := he ▸ valStop_cons v c z h

theorem valStop_nil (v : JsonVal) : valStop v [] := by
  cases v <;> trivial

theorem valStop_items (v : JsonVal) (ind : Nat) (xs : List JsonVal) (z : List Char) :
    valStop v (renderItems ind xs ++ '\n' :: z) := by
  cases xs with
  | nil => exact valStop_cons v '\n' z (by decide)
  | cons x xs' => exact valStop_eq_cons v _ ',' _ rfl (by decide)

theorem valStop_mems (v : JsonVal) (ind : Nat) (kvs : List (List Char × JsonVal))
    (z : List Char) : valStop v (renderMembers ind kvs ++ '\n' :: z) := by
  cases kvs with
  | nil => exact valStop_cons v '\n' z (by decide)
  | cons kv kvs' => exact valStop_eq_cons v _ ',' _ rfl (by decide)

theorem skipWs_renderV (ind : Nat) (v : JsonVal) (hwf : WFv v) (z : List Char) :
    skipWs (renderV ind v ++ z) = renderV ind v ++ z := by
  obtain ⟨c, t, he, hws, _⟩ := renderV_head ind v hwf
  rw [he, List.cons_append, skipWs_cons_not_ws c _ hws]

theorem renderMember_head (ind : Nat) (kv : List Char × JsonVal) :
    ∃ t, renderMember ind kv = '"' :: t := by
  obtain ⟨k, v⟩ := kv
  exact ⟨_, rfl⟩

theorem if_bool_neg {α : Sort _} (b : Bool) (h : b = false) (a1 a2 : α) :
    (if b = true then a1 else a2) = a2 := by
  subst h
  rfl

theorem if_bool_pos {α : Sort _} (b : Bool) (h : b = true) (a1 a2 : α) :
    (if b = true then a1 else a2) = a1 := by
  subst h
  rfl

theorem expectLit_pos (cs lit : List Char) (v : JsonVal)
    (h : List.isPrefixOf lit cs = true) :
    expectLit cs lit v = some (v, cs.drop lit.length) := by
  unfold expectLit
  rw [if_pos h]

theorem parseValue_null_lit (f : Nat) (rest : List Char) :
    parseValue (f + 1) ('n' :: 'u' :: 'l' :: 'l' :: rest) = some (JsonVal.null, rest) := by
  have h : List.isPrefixOf ['n', 'u', 'l', 'l'] ('n' :: 'u' :: 'l' :: 'l' :: rest) = true := by
    simp [List.isPrefixOf]
  have step : parseValue (f + 1) ('n' :: 'u' :: 'l' :: 'l' :: rest)
      = expectLit ('n' :: 'u' :: 'l' :: 'l' :: rest) ['n', 'u', 'l', 'l'] JsonVal.null := rfl
  rw [step, expectLit_pos _ _ _ h]
  rfl

theorem parseValue_true_lit (f : Nat) (rest : List Char) :
    parseValue (f + 1) ('t' :: 'r' :: 'u' :: 'e' :: rest)
      = some (JsonVal.bool true, rest) := by
  have h : List.isPrefixOf ['t', 'r', 'u', 'e'] ('t' :: 'r' :: 'u' :: 'e' :: rest) = true := by
    simp [List.isPrefixOf]
  have step : parseValue (f + 1) ('t' :: 'r' :: 'u' :: 'e' :: rest)
      = expectLit ('t' :: 'r' :: 'u' :: 'e' :: rest) ['t', 'r', 'u', 'e']
          (JsonVal.bool true) := rfl
  rw [step, expectLit_pos _ _ _ h]
  rfl

theorem parseValue_false_lit (f : Nat) (rest : List Char) :
    parseValue (f + 1) ('f' :: 'a' :: 'l' :: 's' :: 'e' :: rest)
      = some (JsonVal.bool false, rest) := by
  have h : List.isPrefixOf ['f', 'a', 'l', 's', 'e']
      ('f' :: 'a' :: 'l' :: 's' :: 'e' :: rest) = true := by
    simp [List.isPrefixOf]
  have step : parseValue (f + 1) ('f' :: 'a' :: 'l' :: 's' :: 'e' :: rest)
      = expectLit ('f' :: 'a' :: 'l' :: 's' :: 'e' :: rest) ['f', 'a', 'l', 's', 'e']
          (JsonVal.bool false) := rfl
  rw [step, expectLit_pos _ _ _ h]
  rfl

/-- The fuelled parser re-reads any rendered well-formed value, at every
indentation and in front of any non-extending remainder. -/
theorem parse_render_all : ∀ f : Nat,
    (∀ ind v rest, WFv v → valStop v rest → szV v < f →
       parseValue f (renderV ind v ++ rest) = some (v, rest)) ∧
    (∀ ind ind2 xs rest, WFl xs → szItems xs < f →
       parseArrRest f (skipWs (renderItems ind xs ++ '\n' :: (sp ind2 ++ ']' :: rest)))
         = some (xs, rest)) ∧
    (∀ ind kv rest, WFv kv.2 → valStop kv.2 rest → 1 + szV kv.2 < f →
       parseMember f (renderMember ind kv ++ rest) = some (kv, rest)) ∧
    (∀ ind ind2 kvs rest, WFm kvs → szMems kvs < f →
       parseObjRest f (skipWs (renderMembers ind kvs ++ '\n' ::
         (sp ind2 ++ Char.ofNat 125 :: rest))) = some (kvs, rest)) := by
  intro f
  induction f with
  | zero =>
    exact ⟨fun _ _ _ _ _ h => absurd h (by omega),
      fun _ _ _ _ _ h => absurd h (by omega),
      fun _ _ _ _ _ h => absurd h (by omega),
      fun _ _ _ _ _ h => absurd h (by omega)⟩
  | succ f ih =>
    obtain ⟨ihV, ihA, ihM, ihO⟩ := ih
    refine ⟨?_, ?_, ?_, ?_⟩
    · intro ind v rest hwf hstop hf
      cases v with
      | null =>
        rw [show renderV ind JsonVal.null ++ rest = 'n' :: 'u' :: 'l' :: 'l' :: rest from rfl,
          parseValue_null_lit f rest]
      | bool b =>
        cases b with
        | true =>
          rw [show renderV ind (JsonVal.bool true) ++ rest
              = 't' :: 'r' :: 'u' :: 'e' :: rest from rfl, parseValue_true_lit f rest]
        | false =>
          rw [show renderV ind (JsonVal.bool false) ++ rest
              = 'f' :: 'a' :: 'l' :: 's' :: 'e' :: rest from rfl, parseValue_false_lit f rest]
      | num t =>
        obtain ⟨hrerun, ⟨d, t2, ht, hd⟩, _⟩ := hwf
        have hdn : 48 ≤ d.toNat ∧ d.toNat ≤ 57 ∨ d.toNat = 45 := by
          rcases hd with hd | hd
          · exact Or.inl (isDigitChar_bounds hd)
          · subst hd; exact Or.inr rfl
        obtain ⟨h1, h2, h3, h4, h5, h6⟩ := num_head_dispatch hdn
        have hre : renderV ind (JsonVal.num t) ++ rest = d :: (t2 ++ rest) := by
          rw [show renderV ind (JsonVal.num t) = t from rfl, ht, List.cons_append]
        have hrerun' := hrerun rest hstop
        rw [ht] at hrerun'
        rw [hre, parseValue_num_step f d (t2 ++ rest) h1 h2 h3 h4 h5 h6,
          ← List.cons_append, hrerun', ← ht]
      | str s =>
        have he : renderV ind (JsonVal.str s) ++ rest = '"' :: (escStr s ++ '"' :: rest) := by
          rw [show renderV ind (JsonVal.str s) = '"' :: escStr s ++ ['"'] from rfl]
          simp
        rw [he, parseValue_str_step f]
        have hlen : (escStr s).length < (escStr s ++ '"' :: rest).length + 1 := by
          rw [List.length_append]
          omega
        rw [parseStringBody_escStr s ((escStr s ++ '"' :: rest).length + 1) rest hlen]
      | arr l =>
        cases l with
        | nil => rfl
        | cons x xs =>
          obtain ⟨hwx, hwxs⟩ := hwf
          simp only [szV] at hf
          have hpi := szItems_pos xs
          have he : renderV ind (JsonVal.arr (x :: xs)) ++ rest
              = '[' :: '\n' :: (sp (ind + 2) ++ (renderV (ind + 2) x ++
                  (renderItems (ind + 2) xs ++ '\n' :: (sp ind ++ ']' :: rest)))) := by
            rw [show renderV ind (JsonVal.arr (x :: xs))
                = '[' :: '\n' :: sp (ind + 2) ++ renderV (ind + 2) x ++
                    renderItems (ind + 2) xs ++ '\n' :: sp ind ++ [']'] from rfl]
            simp [List.append_assoc]
          rw [he, parseValue_arr_step f]
          have hsk : skipWs ('\n' :: (sp (ind + 2) ++ (renderV (ind + 2) x ++
              (renderItems (ind + 2) xs ++ '\n' :: (sp ind ++ ']' :: rest)))))
              = renderV (ind + 2) x ++
                  (renderItems (ind + 2) xs ++ '\n' :: (sp ind ++ ']' :: rest)) := by
            rw [skipWs_cons_ws _ _ (by decide), skipWs_sp, skipWs_renderV _ _ hwx]
          rw [hsk]
          obtain ⟨c, t, hce, hws, hne1, _⟩ := renderV_head (ind + 2) x hwx
          have hh : headIsChar ']' (renderV (ind + 2) x ++
              (renderItems (ind + 2) xs ++ '\n' :: (sp ind ++ ']' :: rest))) = false := by
            rw [hce, List.cons_append]
            simp [headIsChar, hne1]
          rw [if_bool_neg _ hh,
            ihV (ind + 2) x _ hwx (valStop_items x (ind + 2) xs _) (by omega)]
          show (match parseArrRest f (skipWs (renderItems (ind + 2) xs ++ '\n' ::
                (sp ind ++ ']' :: rest))) with
            | some (vs, r2) => some (JsonVal.arr (x :: vs), r2)
            | none => none) = some (JsonVal.arr (x :: xs), rest)
          rw [ihA (ind + 2) ind xs rest hwxs (by omega)]
      | obj m =>
        cases m with
        | nil => rfl
        | cons kv kvs =>
          obtain ⟨hnd, hwkv, hwkvs⟩ := hwf
          simp only [szV] at hf
          have hpm := szMems_pos kvs
          have he : renderV ind (JsonVal.obj (kv :: kvs)) ++ rest
              = Char.ofNat 123 :: '\n' :: (sp (ind + 2) ++ (renderMember (ind + 2) kv ++
                  (renderMembers (ind + 2) kvs ++ '\n' ::
                    (sp ind ++ Char.ofNat 125 :: rest)))) := by
            rw [show renderV ind (JsonVal.obj (kv :: kvs))
                = Char.ofNat 123 :: '\n' :: sp (ind + 2) ++ renderMember (ind + 2) kv ++
                    renderMembers (ind + 2) kvs ++ '\n' :: sp ind ++ [Char.ofNat 125] from rfl]
            simp [List.append_assoc]
          rw [he, parseValue_obj_step f]
          obtain ⟨mt, hmt⟩ := renderMember_head (ind + 2) kv
          have hsk : skipWs ('\n' :: (sp (ind + 2) ++ (renderMember (ind + 2) kv ++
              (renderMembers (ind + 2) kvs ++ '\n' :: (sp ind ++ Char.ofNat 125 :: rest)))))
              = renderMember (ind + 2) kv ++
                  (renderMembers (ind + 2) kvs ++ '\n' ::
                    (sp ind ++ Char.ofNat 125 :: rest)) := by
            rw [skipWs_cons_ws _ _ (by decide), skipWs_sp, hmt, List.cons_append,
              skipWs_cons_not_ws _ _ (by decide)]
          rw [hsk]
          have hh : headIsChar (Char.ofNat 125) (renderMember (ind + 2) kv ++
              (renderMembers (ind + 2) kvs ++ '\n' ::
                (sp ind ++ Char.ofNat 125 :: rest))) = false := by
            rw [hmt, List.cons_append]
            rfl
          rw [if_bool_neg _ hh,
            ihM (ind + 2) kv _ hwkv (valStop_mems kv.2 (ind + 2) kvs _) (by omega)]
          show (match parseObjRest f (skipWs (renderMembers (ind + 2) kvs ++ '\n' ::
                (sp ind ++ Char.ofNat 125 :: rest))) with
            | some (kvs2, r2) => some (JsonVal.obj (buildDict (kv :: kvs2)), r2)
            | none => none) = some (JsonVal.obj (kv :: kvs), rest)
          rw [ihO (ind + 2) ind kvs rest hwkvs (by omega)]
          show some (JsonVal.obj (buildDict (kv :: kvs)), rest)
            = some (JsonVal.obj (kv :: kvs), rest)
          rw [buildDict_self _ hnd]
    · intro ind ind2 xs rest hwl hf
      cases xs with
      | nil =>
        have hsk : skipWs (renderItems ind [] ++ '\n' :: (sp ind2 ++ ']' :: rest))
            = ']' :: rest := by
          show skipWs ('\n' :: (sp ind2 ++ ']' :: rest)) = ']' :: rest
          rw [skipWs_cons_ws _ _ (by decide), skipWs_sp,
            skipWs_cons_not_ws _ _ (by decide)]
        rw [hsk]
        rfl
      | cons x xs' =>
        obtain ⟨hwx, hwxs⟩ := hwl
        simp only [szItems] at hf
        have hpi := szItems_pos xs'
        have he : renderItems ind (x :: xs') ++ '\n' :: (sp ind2 ++ ']' :: rest)
            = ',' :: '\n' :: (sp ind ++ (renderV ind x ++
                (renderItems ind xs' ++ '\n' :: (sp ind2 ++ ']' :: rest)))) := by
          rw [show renderItems ind (x :: xs')
              = ',' :: '\n' :: sp ind ++ renderV ind x ++ renderItems ind xs' from rfl]
          simp [List.append_assoc]
        rw [he, skipWs_cons_not_ws _ _ (by decide), parseArrRest_step f]
        have hno : headIsChar ']' (',' :: '\n' :: (sp ind ++ (renderV ind x ++
            (renderItems ind xs' ++ '\n' :: (sp ind2 ++ ']' :: rest))))) = false := rfl
        have hyes : headIsChar ',' (',' :: '\n' :: (sp ind ++ (renderV ind x ++
            (renderItems ind xs' ++ '\n' :: (sp ind2 ++ ']' :: rest))))) = true := rfl
        rw [if_bool_neg _ hno, if_bool_pos _ hyes]
        simp only [List.tail_cons]
        have hsk : skipWs ('\n' :: (sp ind ++ (renderV ind x ++
            (renderItems ind xs' ++ '\n' :: (sp ind2 ++ ']' :: rest)))))
            = renderV ind x ++ (renderItems ind xs' ++ '\n' :: (sp ind2 ++ ']' :: rest)) := by
          rw [skipWs_cons_ws _ _ (by decide), skipWs_sp, skipWs_renderV _ _ hwx]
        rw [hsk, ihV ind x _ hwx (valStop_items x ind xs' _) (by omega)]
        show (match parseArrRest f (skipWs (renderItems ind xs' ++ '\n' ::
              (sp ind2 ++ ']' :: rest))) with
          | some (vs, r2) => some (x :: vs, r2)
          | none => none) = some (x :: xs', rest)
        rw [ihA ind ind2 xs' rest hwxs (by omega)]
    · intro ind kv rest hwv hstop hf
      obtain ⟨k, v⟩ := kv
      have hwv' : WFv v := hwv
      have hstop' : valStop v rest := hstop
      have hf' : 1 + szV v < f + 1 := hf
      have he : renderMember ind (k, v) ++ rest
          = '"' :: (escStr k ++ '"' :: (':' :: ' ' :: (renderV ind v ++ rest))) := by
        rw [show renderMember ind (k, v)
            = ('"' :: escStr k ++ ['"']) ++ ':' :: ' ' :: renderV ind v from rfl]
        simp [List.append_assoc]
      rw [he, parseMember_step f]
      have hyes : headIsChar '"' ('"' :: (escStr k ++ '"' ::
          (':' :: ' ' :: (renderV ind v ++ rest)))) = true := rfl
      rw [if_bool_pos _ hyes]
      simp only [List.tail_cons]
      have hlen : (escStr k).length < (escStr k ++ '"' ::
          (':' :: ' ' :: (renderV ind v ++ rest))).length + 1 := by
        rw [List.length_append]
        omega
      rw [parseStringBody_escStr k _ (':' :: ' ' :: (renderV ind v ++ rest)) hlen]
      show (if headIsChar ':' (skipWs (':' :: ' ' :: (renderV ind v ++ rest))) = true then
          match parseValue f (skipWs (skipWs (':' :: ' ' ::
              (renderV ind v ++ rest))).tail) with
          | some (v2, r3) => some ((k, v2), r3)
          | none => none
        else none) = some ((k, v), rest)
      rw [skipWs_cons_not_ws _ _ (by decide)]
      have hyes2 : headIsChar ':' (':' :: ' ' :: (renderV ind v ++ rest)) = true := rfl
      rw [if_bool_pos _ hyes2]
      simp only [List.tail_cons]
      have hsk3 : skipWs (' ' :: (renderV ind v ++ rest)) = renderV ind v ++ rest := by
        rw [skipWs_cons_ws _ _ (by decide), skipWs_renderV _ _ hwv']
      rw [hsk3, ihV ind v rest hwv' hstop' (by omega)]
    · intro ind ind2 kvs rest hwm hf
      cases kvs with
      | nil =>
        have hsk : skipWs (renderMembers ind [] ++ '\n' ::
            (sp ind2 ++ Char.ofNat 125 :: rest)) = Char.ofNat 125 :: rest := by
          show skipWs ('\n' :: (sp ind2 ++ Char.ofNat 125 :: rest)) = Char.ofNat 125 :: rest
          rw [skipWs_cons_ws _ _ (by decide), skipWs_sp,
            skipWs_cons_not_ws _ _ (by decide)]
        rw [hsk]
        rfl
      | cons kv kvs' =>
        obtain ⟨hwkv, hwkvs⟩ := hwm
        simp only [szMems] at hf
        have hpm := szMems_pos kvs'
        have he : renderMembers ind (kv :: kvs') ++ '\n' ::
            (sp ind2 ++ Char.ofNat 125 :: rest)
            = ',' :: '\n' :: (sp ind ++ (renderMember ind kv ++
                (renderMembers ind kvs' ++ '\n' ::
                  (sp ind2 ++ Char.ofNat 125 :: rest)))) := by
          rw [show renderMembers ind (kv :: kvs')
              = ',' :: '\n' :: sp ind ++ renderMember ind kv ++ renderMembers ind kvs'
              from rfl]
          simp [List.append_assoc]
        rw [he, skipWs_cons_not_ws _ _ (by decide), parseObjRest_step f]
        have hno : headIsChar (Char.ofNat 125) (',' :: '\n' :: (sp ind ++
            (renderMember ind kv ++ (renderMembers ind kvs' ++ '\n' ::
              (sp ind2 ++ Char.ofNat 125 :: rest))))) = false := rfl
        have hyes : headIsChar ',' (',' :: '\n' :: (sp ind ++
            (renderMember ind kv ++ (renderMembers ind kvs' ++ '\n' ::
              (sp ind2 ++ Char.ofNat 125 :: rest))))) = true := rfl
        rw [if_bool_neg _ hno, if_bool_pos _ hyes]
        simp only [List.tail_cons]
        obtain ⟨mt, hmt⟩ := renderMember_head ind kv
        have hsk : skipWs ('\n' :: (sp ind ++ (renderMember ind kv ++
            (renderMembers ind kvs' ++ '\n' :: (sp ind2 ++ Char.ofNat 125 :: rest)))))
            = renderMember ind kv ++ (renderMembers ind kvs' ++ '\n' ::
                (sp ind2 ++ Char.ofNat 125 :: rest)) := by
          rw [skipWs_cons_ws _ _ (by decide), skipWs_sp, hmt, List.cons_append,
            skipWs_cons_not_ws _ _ (by decide)]
        rw [hsk, ihM ind kv _ hwkv (valStop_mems kv.2 ind kvs' _) (by omega)]
        show (match parseObjRest f (skipWs (renderMembers ind kvs' ++ '\n' ::
              (sp ind2 ++ Char.ofNat 125 :: rest))) with
          | some (kvs2, r2) => some (kv :: kvs2, r2)
          | none => none) = some (kv :: kvs', rest)
        rw [ihO ind ind2 kvs' rest hwkvs (by omega)]


/-- Whatever the fuelled parser returns is well-formed: number tokens
re-tokenize to themselves and object keys are distinct at every level. -/
theorem parse_wf_all : ∀ f : Nat,
    (∀ cs v r, parseValue f cs = some (v, r) → WFv v) ∧
    (∀ cs vs r, parseArrRest f cs = some (vs, r) → WFl vs) ∧
    (∀ cs kv r, parseMember f cs = some (kv, r) → WFv kv.2) ∧
    (∀ cs kvs r, parseObjRest f cs = some (kvs, r) → WFm kvs) := by
  intro f
  induction f with
  | zero =>
    exact ⟨fun _ _ _ h => Option.noConfusion h, fun _ _ _ h => Option.noConfusion h,
      fun _ _ _ h => Option.noConfusion h, fun _ _ _ h => Option.noConfusion h⟩
  | succ f ih =>
    obtain ⟨ihV, ihA, ihM, ihO⟩ := ih
    refine ⟨?_, ?_, ?_, ?_⟩
    · intro cs v r h
      cases cs with
      | nil => exact Option.noConfusion h
      | cons c cs' =>
        by_cases h1 : c = 'n'
        · subst h1
          rw [show parseValue (f + 1) ('n' :: cs')
              = expectLit ('n' :: cs') ['n', 'u', 'l', 'l'] JsonVal.null from rfl] at h
          unfold expectLit at h
          split at h
          · cases h; trivial
          · exact Option.noConfusion h
        · by_cases h2 : c = 't'
          · subst h2
            rw [show parseValue (f + 1) ('t' :: cs')
                = expectLit ('t' :: cs') ['t', 'r', 'u', 'e'] (JsonVal.bool true) from rfl] at h
            unfold expectLit at h
            split at h
            · cases h; trivial
            · exact Option.noConfusion h
          · by_cases h3 : c = 'f'
            · subst h3
              rw [show parseValue (f + 1) ('f' :: cs')
                  = expectLit ('f' :: cs') ['f', 'a', 'l', 's', 'e']
                      (JsonVal.bool false) from rfl] at h
              unfold expectLit at h
              split at h
              · cases h; trivial
              · exact Option.noConfusion h
            · by_cases h4 : c = '"'
              · subst h4
                rw [parseValue_str_step f] at h
                cases hps : parseStringBody (cs'.length + 1) cs' with
                | none => rw [hps] at h; exact Option.noConfusion h
                | some p =>
                  obtain ⟨s, r1⟩ := p
                  rw [hps] at h
                  cases h
                  trivial
              · by_cases h5 : c = '['
                · subst h5
                  rw [parseValue_arr_step f] at h
                  split at h
                  · cases h; trivial
                  · cases hv1 : parseValue f (skipWs cs') with
                    | none => rw [hv1] at h; exact Option.noConfusion h
                    | some p =>
                      obtain ⟨v1, r1⟩ := p
                      rw [hv1] at h
                      have h7 : (match parseArrRest f (skipWs r1) with
                          | some (vs, r2) => some (JsonVal.arr (v1 :: vs), r2)
                          | none => none) = some (v, r) := h
                      cases ha : parseArrRest f (skipWs r1) with
                      | none => rw [ha] at h7; exact Option.noConfusion h7
                      | some q =>
                        obtain ⟨vs, r2⟩ := q
                        rw [ha] at h7
                        cases h7
                        exact ⟨ihV _ _ _ hv1, ihA _ _ _ ha⟩
                · by_cases h6 : c = Char.ofNat 123
                  · subst h6
                    rw [parseValue_obj_step f] at h
                    split at h
                    · cases h; exact ⟨List.nodup_nil, trivial⟩
                    · cases hm1 : parseMember f (skipWs cs') with
                      | none => rw [hm1] at h; exact Option.noConfusion h
                      | some p =>
                        obtain ⟨kv, r1⟩ := p
                        rw [hm1] at h
                        have h7 : (match parseObjRest f (skipWs r1) with
                            | some (kvs, r2) =>
                              some (JsonVal.obj (buildDict (kv :: kvs)), r2)
                            | none => none) = some (v, r) := h
                        cases ho : parseObjRest f (skipWs r1) with
                        | none => rw [ho] at h7; exact Option.noConfusion h7
                        | some q =>
                          obtain ⟨kvs, r2⟩ := q
                          rw [ho] at h7
                          cases h7
                          refine ⟨buildDict_nodup _, (WFm_iff _).mpr ?_⟩
                          intro q hq
                          have hv2 := buildDict_val_mem _ q hq
                          rw [List.mem_map] at hv2
                          obtain ⟨p, hp, hval⟩ := hv2
                          rw [← hval]
                          have hwm : WFm (kv :: kvs) := ⟨ihM _ _ _ hm1, ihO _ _ _ ho⟩
                          exact (WFm_iff _).mp hwm p hp
                  · rw [parseValue_num_step f c cs' h1 h2 h3 h4 h5 h6] at h
                    cases hn : parseNumberTok (c :: cs') with
                    | none => rw [hn] at h; exact Option.noConfusion h
                    | some p =>
                      obtain ⟨t, r1⟩ := p
                      rw [hn] at h
                      cases h
                      exact parseNumberTok_spec hn
    · intro cs vs r h
      rw [parseArrRest_step f] at h
      split at h
      · cases h; trivial
      · split at h
        · cases hv1 : parseValue f (skipWs cs.tail) with
          | none => rw [hv1] at h; exact Option.noConfusion h
          | some p =>
            obtain ⟨v1, r1⟩ := p
            rw [hv1] at h
            have h7 : (match parseArrRest f (skipWs r1) with
                | some (vs2, r2) => some (v1 :: vs2, r2)
                | none => none) = some (vs, r) := h
            cases ha : parseArrRest f (skipWs r1) with
            | none => rw [ha] at h7; exact Option.noConfusion h7
            | some q =>
              obtain ⟨vs2, r2⟩ := q
              rw [ha] at h7
              cases h7
              exact ⟨ihV _ _ _ hv1, ihA _ _ _ ha⟩
        · exact Option.noConfusion h
    · intro cs kv r h
      rw [parseMember_step f] at h
      split at h
      · cases hps : parseStringBody (cs.tail.length + 1) cs.tail with
        | none => rw [hps] at h; exact Option.noConfusion h
        | some p =>
          obtain ⟨k, r1⟩ := p
          rw [hps] at h
          have h7 : (if headIsChar ':' (skipWs r1) = true then
              match parseValue f (skipWs (skipWs r1).tail) with
              | some (v, r3) => some ((k, v), r3)
              | none => none
            else none) = some (kv, r) := h
          split at h7
          · cases hv1 : parseValue f (skipWs (skipWs r1).tail) with
            | none => rw [hv1] at h7; exact Option.noConfusion h7
            | some q =>
              obtain ⟨v1, r3⟩ := q
              rw [hv1] at h7
              cases h7
              exact ihV _ _ _ hv1
          · exact Option.noConfusion h7
      · exact Option.noConfusion h
    · intro cs kvs r h
      rw [parseObjRest_step f] at h
      split at h
      · cases h; trivial
      · split at h
        · cases hm1 : parseMember f (skipWs cs.tail) with
          | none => rw [hm1] at h; exact Option.noConfusion h
          | some p =>
            obtain ⟨kv1, r1⟩ := p
            rw [hm1] at h
            have h7 : (match parseObjRest f (skipWs r1) with
                | some (kvs2, r2) => some (kv1 :: kvs2, r2)
                | none => none) = some (kvs, r) := h
            cases ho : parseObjRest f (skipWs r1) with
            | none => rw [ho] at h7; exact Option.noConfusion h7
            | some q =>
              obtain ⟨kvs2, r2⟩ := q
              rw [ho] at h7
              cases h7
              exact ⟨ihM _ _ _ hm1, ihO _ _ _ ho⟩
        · exact Option.noConfusion h

theorem wsContains (c : Char) :
    ([' ', '\t', '\n', '\r'] : List Char).contains c = isWsChar c := by
  rw [Bool.eq_iff_iff]
  simp [List.contains, isWsChar]
  tauto

theorem digit_not_ws {d : Char} (h : isDigitChar d = true) : isWsChar d = false :=
  (num_head_props (Or.inl (isDigitChar_bounds h))).1

/-- The last character of a rendered value is never whitespace. -/
theorem renderV_last (ind : Nat) (v : JsonVal) (hwf : WFv v) :
    ∃ t c, renderV ind v = t ++ [c] ∧ isWsChar c = false := by
  cases v with
  | null => exact ⟨['n', 'u', 'l'], 'l', rfl, by decide⟩
  | bool b =>
    cases b with
    | true => exact ⟨['t', 'r', 'u'], 'e', rfl, by decide⟩
    | false => exact ⟨['f', 'a', 'l', 's'], 'e', rfl, by decide⟩
  | num t =>
    obtain ⟨_, _, ⟨t2, d, ht, hd⟩⟩ := hwf
    exact ⟨t2, d, by rw [show renderV ind (JsonVal.num t) = t from rfl, ht], digit_not_ws hd⟩
  | str s =>
    exact ⟨'"' :: escStr s, '"', by
      rw [show renderV ind (JsonVal.str s) = '"' :: escStr s ++ ['"'] from rfl], by decide⟩
  | arr l =>
    cases l with
    | nil => exact ⟨['['], ']', rfl, by decide⟩
    | cons x xs =>
      exact ⟨'[' :: '\n' :: (sp (ind + 2) ++ renderV (ind + 2) x ++
          renderItems (ind + 2) xs ++ '\n' :: sp ind), ']', by
        rw [show renderV ind (JsonVal.arr (x :: xs))
            = '[' :: '\n' :: sp (ind + 2) ++ renderV (ind + 2) x ++
                renderItems (ind + 2) xs ++ '\n' :: sp ind ++ [']'] from rfl]
        simp [List.append_assoc], by decide⟩
  | obj m =>
    cases m with
    | nil => exact ⟨[Char.ofNat 123], Char.ofNat 125, rfl, by decide⟩
    | cons kv kvs =>
      exact ⟨Char.ofNat 123 :: '\n' :: (sp (ind + 2) ++ renderMember (ind + 2) kv ++
          renderMembers (ind + 2) kvs ++ '\n' :: sp ind), Char.ofNat 125, by
        rw [show renderV ind (JsonVal.obj (kv :: kvs))
            = Char.ofNat 123 :: '\n' :: sp (ind + 2) ++ renderMember (ind + 2) kv ++
                renderMembers (ind + 2) kvs ++ '\n' :: sp ind ++ [Char.ofNat 125] from rfl]
        simp [List.append_assoc], by decide⟩

/-- A string that neither starts nor ends with whitespace is untouched by the
outer trim of `json.loads`. -/
theorem trimWsBoth_eq_self {l : List Char} {c0 : Char} {t0 : List Char} (h0 : l = c0 :: t0)
    (hw0 : isWsChar c0 = false) {t1 : List Char} {c1 : Char} (h1 : l = t1 ++ [c1])
    (hw1 : isWsChar c1 = false) : trimWsBoth l = l := by
  unfold trimWsBoth
  have hr : pyRstrip [' ', '\t', '\n', '\r'] l = l := by
    unfold pyRstrip
    rw [h1]
    have hrev : (t1 ++ [c1]).reverse = c1 :: t1.reverse := by simp
    rw [hrev, List.dropWhile_cons]
    have hp : (fun c => ([' ', '\t', '\n', '\r'] : List Char).contains c) c1 = false := by
      show ([' ', '\t', '\n', '\r'] : List Char).contains c1 = false
      rw [wsContains]
      exact hw1
    rw [if_bool_neg _ hp]
    simp
  rw [hr, h0, pyLstrip_cons, wsContains, hw0]
  rfl

theorem sp_length (n : Nat) : (sp n).length = n := by
  simp [sp]

/-- The size measure of a value is bounded by the length of its rendering, so
rendering-length fuel always suffices to re-parse. -/
theorem szRender_all : ∀ n : Nat,
    (∀ v, szV v ≤ n → WFv v → ∀ ind, szV v ≤ (renderV ind v).length) ∧
    (∀ xs, szItems xs ≤ n → WFl xs → ∀ ind,
       szItems xs ≤ (renderItems ind xs).length + 1) ∧
    (∀ kv : List Char × JsonVal, 1 + szV kv.2 ≤ n → WFv kv.2 → ∀ ind,
       1 + szV kv.2 ≤ (renderMember ind kv).length) ∧
    (∀ kvs, szMems kvs ≤ n → WFm kvs → ∀ ind,
       szMems kvs ≤ (renderMembers ind kvs).length + 1) := by
  intro n
  induction n with
  | zero =>
    refine ⟨fun v h _ _ => absurd h ?_, fun xs h _ _ => absurd h ?_,
      fun kv h _ _ => absurd h ?_, fun kvs h _ _ => absurd h ?_⟩
    · have := szV_pos v; omega
    · have := szItems_pos xs; omega
    · have := szV_pos kv.2; omega
    · have := szMems_pos kvs; omega
  | succ n ih =>
    obtain ⟨ihV, ihA, ihM, ihO⟩ := ih
    refine ⟨?_, ?_, ?_, ?_⟩
    · intro v hle hwf ind
      cases v with
      | null => show (1 : Nat) ≤ 4; omega
      | bool b =>
        cases b with
        | true => show (1 : Nat) ≤ 4; omega
        | false => show (1 : Nat) ≤ 5; omega
      | num t =>
        obtain ⟨_, ⟨d, t2, ht, _⟩, _⟩ := hwf
        rw [show renderV ind (JsonVal.num t) = t from rfl, ht]
        show (1 : Nat) ≤ t2.length + 1
        omega
      | str s =>
        rw [show renderV ind (JsonVal.str s) = '"' :: escStr s ++ ['"'] from rfl]
        show (1 : Nat) ≤ (escStr s ++ ['"']).length + 1
        omega
      | arr l =>
        cases l with
        | nil => show (1 : Nat) ≤ 2; omega
        | cons x xs =>
          obtain ⟨hwx, hwxs⟩ := hwf
          simp only [szV] at hle ⊢
          have hp1 := szV_pos x
          have hp2 := szItems_pos xs
          have hx := ihV x (by omega) hwx (ind + 2)
          have hxs := ihA xs (by omega) hwxs (ind + 2)
          rw [show renderV ind (JsonVal.arr (x :: xs))
              = '[' :: '\n' :: sp (ind + 2) ++ renderV (ind + 2) x ++
                  renderItems (ind + 2) xs ++ '\n' :: sp ind ++ [']'] from rfl]
          simp [List.length_append, sp_length]
          omega
      | obj m =>
        cases m with
        | nil => show (1 : Nat) ≤ 2; omega
        | cons kv kvs =>
          obtain ⟨_, hwkv, hwkvs⟩ := hwf
          simp only [szV] at hle ⊢
          have hp1 := szV_pos kv.2
          have hp2 := szMems_pos kvs
          have hkv := ihM kv (by omega) hwkv (ind + 2)
          have hkvs := ihO kvs (by omega) hwkvs (ind + 2)
          rw [show renderV ind (JsonVal.obj (kv :: kvs))
              = Char.ofNat 123 :: '\n' :: sp (ind + 2) ++ renderMember (ind + 2) kv ++
                  renderMembers (ind + 2) kvs ++ '\n' :: sp ind ++ [Char.ofNat 125] from rfl]
          simp [List.length_append, sp_length]
          omega
    · intro xs hle hwl ind
      cases xs with
      | nil =>
        show (1 : Nat) ≤ 0 + 1
        omega
      | cons x xs' =>
        obtain ⟨hwx, hwxs⟩ := hwl
        simp only [szItems] at hle ⊢
        have hp1 := szV_pos x
        have hp2 := szItems_pos xs'
        have hx := ihV x (by omega) hwx ind
        have hxs := ihA xs' (by omega) hwxs ind
        rw [show renderItems ind (x :: xs')
            = ',' :: '\n' :: sp ind ++ renderV ind x ++ renderItems ind xs' from rfl]
        simp [List.length_append, sp_length]
        omega
    · intro kv hle hwv ind
      obtain ⟨k, w⟩ := kv
      have hw' : WFv w := hwv
      have hle' : 1 + szV w ≤ n + 1 := hle
      have hp1 := szV_pos w
      have hx := ihV w (by omega) hw' ind
      show 1 + szV w ≤ (renderMember ind (k, w)).length
      rw [show renderMember ind (k, w)
          = ('"' :: escStr k ++ ['"']) ++ ':' :: ' ' :: renderV ind w from rfl]
      simp [List.length_append]
      omega
    · intro kvs hle hwm ind
      cases kvs with
      | nil =>
        show (1 : Nat) ≤ 0 + 1
        omega
      | cons kv kvs' =>
        obtain ⟨hwkv, hwkvs⟩ := hwm
        simp only [szMems] at hle ⊢
        have hp1 := szV_pos kv.2
        have hp2 := szMems_pos kvs'
        have hkv := ihM kv (by omega) hwkv ind
        have hkvs := ihO kvs' (by omega) hwkvs ind
        rw [show renderMembers ind (kv :: kvs')
            = ',' :: '\n' :: sp ind ++ renderMember ind kv ++ renderMembers ind kvs'
            from rfl]
        simp [List.length_append, sp_length]
        omega

/-- `json.loads` inverts `json.dumps(·, indent=2)` on well-formed values. -/
theorem parseJson_dumpJson (v : JsonVal) (hwf : WFv v) : parseJson (dumpJson v) = some v := by
  obtain ⟨c0, t0, h0, hw0, _⟩ := renderV_head 0 v hwf
  obtain ⟨t1, c1, h1, hw1⟩ := renderV_last 0 v hwf
  have htrim : trimWsBoth (dumpJson v) = dumpJson v :=
    trimWsBoth_eq_self (l := dumpJson v) h0 hw0 h1 hw1
  have hfuel : szV v ≤ (dumpJson v).length :=
    (szRender_all (szV v)).1 v (Nat.le_refl _) hwf 0
  have hp : parseValue ((dumpJson v).length + 1) (dumpJson v) = some (v, []) := by
    have h := (parse_render_all ((dumpJson v).length + 1)).1 0 v [] hwf (valStop_nil v)
      (by omega)
    rwa [List.append_nil] at h
  show (match parseValue ((trimWsBoth (dumpJson v)).length + 1) (trimWsBoth (dumpJson v)) with
    | some (w, []) => some w
    | _ => none) = some v
  rw [htrim, hp]

/-- Any value `json.loads` returns is well-formed. -/
theorem parseJson_wf {cs : List Char} {v : JsonVal} (h : parseJson cs = some v) : WFv v := by
  have h2 : (match parseValue ((trimWsBoth cs).length + 1) (trimWsBoth cs) with
    | some (w, []) => some w
    | _ => none) = some v := h
  cases hp : parseValue ((trimWsBoth cs).length + 1) (trimWsBoth cs) with
  | none => rw [hp] at h2; exact Option.noConfusion h2
  | some p =>
    obtain ⟨w, r⟩ := p
    rw [hp] at h2
    cases r with
    | nil =>
      cases h2
      exact (parse_wf_all _).1 _ _ _ hp
    | cons a r' => exact Option.noConfusion h2

/-- C2: with the model reply stubbed to any text whose cleaned form parses as
JSON, `image_to_nodes` returns exactly that parsed structure; `save_nodes_to_file`
writes `json.dumps(·, indent=2)` of it to the chosen path, and re-loading the
written file parses back to the same structure (round-trip law). -/
theorem image_to_nodes_save_roundtrip
    (imageFS : List Char → Option (List Nat)) (textFS : List Char → Option (List Char))
    (responseText image_path output_file : List Char) (bytes : List Nat) (v : JsonVal)
    (himg : imageFS image_path = some bytes)
    (hparse : parseJson (FlowchartProcessor.clean_response responseText) = some v) :
    (FlowchartProcessor.image_to_nodes imageFS responseText image_path).1 = Except.ok v ∧
    (FlowchartProcessor.save_nodes_to_file textFS v output_file).1 output_file
        = some (dumpJson v) ∧
    parseJson (dumpJson v) = some v := by
  refine ⟨?_, ?_, ?_⟩
  · simp [FlowchartProcessor.image_to_nodes, FlowchartProcessor.load_image_as_base64,
      himg, hparse]
  · show (if output_file = output_file then some (dumpJson v) else textFS output_file)
        = some (dumpJson v)
    rw [if_pos rfl]
  · exact parseJson_dumpJson v (parseJson_wf hparse)

theorem image_to_nodes_save_roundtrip_witness :
    (FlowchartProcessor.image_to_nodes (fun _ => some [7]) "[1, 2]".data "i".data).1
        = Except.ok (JsonVal.arr [JsonVal.num ['1'], JsonVal.num ['2']]) ∧
    (FlowchartProcessor.save_nodes_to_file (fun _ => none)
        (JsonVal.arr [JsonVal.num ['1'], JsonVal.num ['2']]) "o".data).1 "o".data
        = some (dumpJson (JsonVal.arr [JsonVal.num ['1'], JsonVal.num ['2']])) ∧
    parseJson (dumpJson (JsonVal.arr [JsonVal.num ['1'], JsonVal.num ['2']]))
        = some (JsonVal.arr [JsonVal.num ['1'], JsonVal.num ['2']]) :=
  image_to_nodes_save_roundtrip (fun _ => some [7]) (fun _ => none) "[1, 2]".data
    "i".data "o".data [7] (JsonVal.arr [JsonVal.num ['1'], JsonVal.num ['2']]) rfl rfl

/-- C3 counterexample: the claim says each converter stage logs the offending
cleaned text on a parse failure, but the first stage (`image_to_nodes`)
prints only the error message — its log holds no `Result content` entry at
all (only `convert_nodes` prints the truncated offending text). -/
theorem image_stage_no_offending_text_logged_cex :
    FlowchartProcessor.image_to_nodes (fun _ => some []) "x".data "img.png".data
      = (Except.error PErr.jsonDecode, [LogEntry.parseFailMsg]) ∧
    (∀ txt, LogEntry.resultContent txt ∉ [LogEntry.parseFailMsg]) :=
  ⟨rfl, by intro txt h; simp at h⟩

/-- C3 (amended): when the cleaned model reply is not valid JSON, each stage
re-raises the decode error and never substitutes a default result; the first
stage logs only the failure message, the second stage logs the failure
message followed by the offending cleaned text truncated to 500 characters;
the pipeline aborted by a first-stage failure writes no file, and one
aborted by a second-stage failure writes the nodes file but never the
actionable file. -/
theorem parse_failure_propagation
    (imageFS : List Char → Option (List Nat)) (textFS : List Char → Option (List Char))
    (resp1 resp1b resp2 image_path nodes_file template_file actionable_file : List Char)
    (bytes : List Nat) (ntext ttext : List Char) (nv tv v1 : JsonVal)
    (himg : imageFS image_path = some bytes)
    (h1 : parseJson (FlowchartProcessor.clean_response resp1) = none)
    (hs1 : parseJson (FlowchartProcessor.clean_response resp1b) = some v1)
    (hn : textFS nodes_file = some ntext) (hnp : parseJson ntext = some nv)
    (ht : textFS template_file = some ttext) (htp : parseJson ttext = some tv)
    (hneq : ¬template_file = nodes_file)
    (h2 : parseJson (ActionableNodeConverter.clean_response resp2) = none) :
    FlowchartProcessor.image_to_nodes imageFS resp1 image_path
      = (Except.error PErr.jsonDecode, [LogEntry.parseFailMsg]) ∧
    ActionableNodeConverter.convert_nodes textFS resp2 nodes_file template_file
      = (Except.error PErr.jsonDecode,
          [LogEntry.parseFailMsg,
            LogEntry.resultContent ((ActionableNodeConverter.clean_response resp2).take 500)]) ∧
    FlowchartPipeline.process_flowchart ⟨imageFS, textFS, resp1, resp2⟩ image_path
      nodes_file actionable_file template_file
      = (Except.error PErr.jsonDecode, [Event.calledImageToNodes]) ∧
    FlowchartPipeline.process_flowchart ⟨imageFS, textFS, resp1b, resp2⟩ image_path
      nodes_file actionable_file template_file
      = (Except.error PErr.jsonDecode,
          [Event.calledImageToNodes, Event.wrote nodes_file, Event.calledConvertNodes]) := by
  have e1 : FlowchartProcessor.image_to_nodes imageFS resp1 image_path
      = (Except.error PErr.jsonDecode, [LogEntry.parseFailMsg]) := by
    simp [FlowchartProcessor.image_to_nodes, FlowchartProcessor.load_image_as_base64,
      himg, h1]
  have e1b : FlowchartProcessor.image_to_nodes imageFS resp1b image_path
      = (Except.ok v1, []) := by
    simp [FlowchartProcessor.image_to_nodes, FlowchartProcessor.load_image_as_base64,
      himg, hs1]
  have e2 : ActionableNodeConverter.convert_nodes textFS resp2 nodes_file template_file
      = (Except.error PErr.jsonDecode,
          [LogEntry.parseFailMsg,
            LogEntry.resultContent ((ActionableNodeConverter.clean_response resp2).take 500)]) := by
    simp [ActionableNodeConverter.convert_nodes, hn, hnp, ht, htp, h2]
  have hdj : parseJson (dumpJson v1) = some v1 := parseJson_dumpJson v1 (parseJson_wf hs1)
  have e2b : ActionableNodeConverter.convert_nodes
      (fun p => if p = nodes_file then some (dumpJson v1) else textFS p)
      resp2 nodes_file template_file
      = (Except.error PErr.jsonDecode,
          [LogEntry.parseFailMsg,
            LogEntry.resultContent ((ActionableNodeConverter.clean_response resp2).take 500)]) := by
    simp [ActionableNodeConverter.convert_nodes, hdj, hneq, ht, htp, h2]
  refine ⟨e1, e2, ?_, ?_⟩
  · simp [FlowchartPipeline.process_flowchart, e1]
  · simp [FlowchartPipeline.process_flowchart, FlowchartProcessor.save_nodes_to_file,
      e1b, e2b]

theorem parse_failure_propagation_witness :
    FlowchartProcessor.image_to_nodes (fun _ => some [7]) "x".data "i".data
      = (Except.error PErr.jsonDecode, [LogEntry.parseFailMsg]) ∧
    ActionableNodeConverter.convert_nodes
      (fun p => if p = "n".data then some "0".data else
        if p = "t".data then some "1".data else none) "y".data "n".data "t".data
      = (Except.error PErr.jsonDecode,
          [LogEntry.parseFailMsg,
            LogEntry.resultContent ((ActionableNodeConverter.clean_response "y".data).take 500)]) ∧
    FlowchartPipeline.process_flowchart
      ⟨fun _ => some [7],
        fun p => if p = "n".data then some "0".data else
          if p = "t".data then some "1".data else none, "x".data, "y".data⟩
      "i".data "n".data "a".data "t".data
      = (Except.error PErr.jsonDecode, [Event.calledImageToNodes]) ∧
    FlowchartPipeline.process_flowchart
      ⟨fun _ => some [7],
        fun p => if p = "n".data then some "0".data else
          if p = "t".data then some "1".data else none, "2".data, "y".data⟩
      "i".data "n".data "a".data "t".data
      = (Except.error PErr.jsonDecode,
          [Event.calledImageToNodes, Event.wrote "n".data, Event.calledConvertNodes]) :=
  parse_failure_propagation (fun _ => some [7])
    (fun p => if p = "n".data then some "0".data else
      if p = "t".data then some "1".data else none)
    "x".data "2".data "y".data "i".data "n".data "t".data "a".data [7] "0".data "1".data
    (JsonVal.num ['0']) (JsonVal.num ['1']) (JsonVal.num ['2'])
    rfl rfl rfl rfl rfl rfl rfl (by decide) rfl
